import Mathlib

/-!
Shallow embedding of the college-football ranking engine
(source: src/rankings_lambda.py).

Python dicts preserve insertion order and have unique keys; we model
the class-level registry Team.teams as a list of Team values with
distinct names kept in insertion order, and each per-team games dict
as an association list of (opponent name, signed point spread) kept in
insertion order, where assignment to an existing key keeps its position.
Python floats are modelled as rationals. Python code that can raise
KeyError is modelled with Option.
-/

namespace CFB

/-- One team entity, mirroring the attributes set in Team.__init__ and
mutated by the methods of the Team class. -/
structure Team where
  name : String
  is_fbs : Bool
  games : List (String × Int)
  wins : Nat
  losses : Nat
  sos : ℚ
deriving Repr, DecidableEq

/-- Team.__init__: fresh team with no games, 0-0 record and sos 0. -/
def newTeam (name : String) (is_fbs : Bool) : Team :=
  { name := name, is_fbs := is_fbs, games := [], wins := 0, losses := 0, sos := 0 }

/-- The registry Team.teams: a name-keyed, insertion-ordered collection. -/
abbrev Registry := List Team

/-- Team.teams.get(n) : first (unique) team with the given name. -/
def findTeam (r : Registry) (n : String) : Option Team :=
  r.find? (fun t => t.name = n)

/-- In-place mutation of the team named n inside the registry. -/
def updateTeam (r : Registry) (n : String) (f : Team → Team) : Registry :=
  r.map (fun t => if t.name = n then f t else t)

/-- Python dict assignment games[k] = v: overwrite in place if the key is
present, else append at the end. -/
def setGame (gs : List (String × Int)) (k : String) (v : Int) : List (String × Int) :=
  if gs.any (fun p => p.1 = k) then
    gs.map (fun p => if p.1 = k then (k, v) else p)
  else
    gs ++ [(k, v)]

/-- Python dict lookup games.get(k). -/
def lookupGame (gs : List (String × Int)) (k : String) : Option Int :=
  (gs.find? (fun p => p.1 = k)).map Prod.snd

/-- Team.add_game: store the signed spread under the opponent key
(overwriting any earlier entry) and bump the win or loss counter. -/
def Team.add_game (t : Team) (opponent : String) (is_win : Bool) (point_spread : Int) : Team :=
  { t with
    games := setGame t.games opponent point_spread,
    wins := if is_win then t.wins + 1 else t.wins,
    losses := if is_win then t.losses else t.losses + 1 }

/-- Team.teams.get(name) or Team(name, fbs): reuse the registered team,
else construct one, which registers it at the end of the registry. -/
def ensureTeam (r : Registry) (n : String) (fbs : Bool) : Registry :=
  if (findTeam r n).isSome then r else r ++ [newTeam n fbs]

/-- Team.record_game: look up or create both teams, then record the game
on each side with mirrored signed margins. The two add_game calls are
sequential mutations of the registry. -/
def record_game (r : Registry) (home_name : String) (home_fbs : Bool)
    (away_name : String) (away_fbs : Bool) (home_points away_points : Int) : Registry :=
  let r2 := ensureTeam (ensureTeam r home_name home_fbs) away_name away_fbs
  let home_win : Bool := away_points < home_points
  let margin : Int := (home_points - away_points).natAbs
  let r3 := updateTeam r2 home_name
    (fun t => t.add_game away_name home_win (if home_win then margin else -margin))
  updateTeam r3 away_name
    (fun t => t.add_game home_name (!home_win) (if home_win then -margin else margin))

/-- The two accumulators of the loop in Team.calculate_initial_sos:
total opponent wins and total opponent losses, skipping opponents not
found in the registry. -/
def opponentTotals (r : Registry) (gs : List (String × Int)) : Nat × Nat :=
  gs.foldl
    (fun acc p =>
      match findTeam r p.1 with
      | some o => (acc.1 + o.wins, acc.2 + o.losses)
      | none => acc)
    (0, 0)

/-- Team.calculate_initial_sos: opponent win percentage, with explicit
fallbacks to 0 when the team has no games or the totals are 0. -/
def Team.calculate_initial_sos (r : Registry) (t : Team) : Team :=
  if t.games = [] then { t with sos := 0 }
  else
    let w := (opponentTotals r t.games).1
    let l := (opponentTotals r t.games).2
    { t with sos := if 0 < w + l then (w : ℚ) / ((w : ℚ) + (l : ℚ)) else 0 }

/-- One step of the initial-SOS loop in get_rankings: the team named n is
recomputed in place against the current registry if it is FBS. -/
def initStep (acc : Registry) (n : String) : Registry :=
  updateTeam acc n (fun t => if t.is_fbs then t.calculate_initial_sos acc else t)

/-- The initial-SOS loop in get_rankings: walk the registry in order and
recompute sos in place for each FBS team. -/
def phaseA (r : Registry) : Registry :=
  (r.map Team.name).foldl initStep r

/-- The two accumulators of the inner loop of Team.calculate_recursive_sos:
the sum of the sos of the opponents found in the registry, and how many
were found. -/
def sosTotals (r : Registry) (gs : List (String × Int)) : ℚ × Nat :=
  gs.foldl
    (fun acc p =>
      match findTeam r p.1 with
      | some o => (acc.1 + o.sos, acc.2 + 1)
      | none => acc)
    (0, 0)

/-- The body of one pass of Team.calculate_recursive_sos for one team:
non-FBS teams are skipped, an FBS team gets the average of its found
opponents' current sos, or 0 when none were found. -/
def Team.recursive_sos_update (r : Registry) (t : Team) : Team :=
  if t.is_fbs then
    let s := sosTotals r t.games
    { t with sos := if 0 < s.2 then s.1 / (s.2 : ℚ) else 0 }
  else t

/-- One step of a recursive-sos pass: the team named n is updated in place
against the current registry. -/
def sosStep (acc : Registry) (n : String) : Registry :=
  updateTeam acc n (fun t => t.recursive_sos_update acc)

/-- One pass of the loop in Team.calculate_recursive_sos: every team in
registry order, updated in place (Gauss-Seidel style: later teams read
the already-updated sos of earlier teams). -/
def sosPass (r : Registry) : Registry :=
  (r.map Team.name).foldl sosStep r

/-- The registry state at the moment the i-th team of the pass is about to
be processed: the first i teams have already been updated in place. -/
def sosPassAt (r : Registry) (i : Nat) : Registry :=
  ((r.map Team.name).take i).foldl sosStep r

/-- Team.calculate_recursive_sos(iterations): the outer for-loop. -/
def calculate_recursive_sos (iterations : Nat) (r : Registry) : Registry :=
  sosPass^[iterations] r

/-- Team.calculate_penalty: 1 + 1.0 * (min(abs(margin), 28) / 28) ** 2. -/
def Team.calculate_penalty (margin : Int) : ℚ :=
  let k : ℚ := 1
  let capped_margin : ℚ := min ((margin.natAbs : ℚ)) 28
  1 + k * (capped_margin / 28) ^ 2

/-- Team.calculate_bonus: 1 + 0.2 * (min(margin, 7) / 21) ** 2. -/
def Team.calculate_bonus (margin : Int) : ℚ :=
  let k : ℚ := 1 / 5
  let capped_margin : ℚ := min ((margin : ℚ)) 7
  1 + k * (capped_margin / 21) ^ 2

/-- The signed contribution of one (opponent, spread) entry to the score
accumulated by Team.rank_score. The none branch is unreachable under the
guard in rank_score; in Python, Team.teams[opponent_name] raises KeyError
there. -/
def scoreTerm (r : Registry) (t : Team) (p : String × Int) : ℚ :=
  match findTeam r p.1 with
  | none => 0
  | some opponent_team =>
    let is_home : Bool :=
      match lookupGame opponent_team.games t.name with
      | some m => m < 0
      | none => false
    if 0 < p.2 then
      (if is_home then (9 : ℚ) / 10 else 11 / 10)
        * ((opponent_team.wins : ℚ) + opponent_team.sos) * Team.calculate_bonus p.2
    else
      -((if is_home then (11 : ℚ) / 10 else 9 / 10)
        * ((opponent_team.losses : ℚ) + opponent_team.sos) * Team.calculate_penalty p.2)

/-- The value Team.rank_score returns when no lookup raises: the
accumulated score scaled by 12 / numberOfGames, or 0 for a team with no
games. -/
def rank_score_val (r : Registry) (t : Team) : ℚ :=
  if 0 < t.games.length then
    (12 / (t.games.length : ℚ)) * (t.games.map (scoreTerm r t)).sum
  else 0

/-- Team.rank_score: none models the KeyError raised when some opponent
is missing from the registry. -/
def Team.rank_score (r : Registry) (t : Team) : Option ℚ :=
  if ∀ p ∈ t.games, (findTeam r p.1).isSome then some (rank_score_val r t) else none

/-- The 4-element rating list built in get_rankings:
(-rank_score, -wins, losses, name). -/
abbrev Rating := ℚ × Int × Nat × String

/-- One lexicographic step: strictly less on the first component, or equal
there and related on the rest. Python list comparison is built from such
steps. -/
def lexStep {α β : Type} [LinearOrder α] (q : β → β → Prop) (a b : α × β) : Prop :=
  a.1 < b.1 ∨ (a.1 = b.1 ∧ q a.2 b.2)

/-- String comparison, the innermost layer of the rating order. -/
def strLe (a b : String) : Prop := a ≤ b

instance : DecidableRel strLe := fun a b => inferInstanceAs (Decidable (a ≤ b))

/-- Comparison of the (losses, name) tail of a rating. -/
def lossNameLe : Nat × String → Nat × String → Prop := lexStep strLe

instance : DecidableRel lossNameLe := fun a b =>
  inferInstanceAs (Decidable (a.1 < b.1 ∨ (a.1 = b.1 ∧ strLe a.2 b.2)))

/-- Comparison of the (-wins, losses, name) tail of a rating. -/
def winLossNameLe : Int × Nat × String → Int × Nat × String → Prop := lexStep lossNameLe

instance : DecidableRel winLossNameLe := fun a b =>
  inferInstanceAs (Decidable (a.1 < b.1 ∨ (a.1 = b.1 ∧ lossNameLe a.2 b.2)))

/-- Python list comparison on the 4-element ratings, as used by
ratings.sort(). -/
def ratingLe : Rating → Rating → Prop := lexStep winLossNameLe

instance : DecidableRel ratingLe := fun a b =>
  inferInstanceAs (Decidable (a.1 < b.1 ∨ (a.1 = b.1 ∧ winLossNameLe a.2 b.2)))

/-- Building the ratings list in registry order; none models the KeyError
that rank_score can raise. -/
def buildRatings (r : Registry) : List Team → Option (List Rating)
  | [] => some []
  | t :: ts =>
    match Team.rank_score r t, buildRatings r ts with
    | some s, some rest => some ((-s, -(t.wins : Int), t.losses, t.name) :: rest)
    | _, _ => none

/-- One output record of get_rankings. -/
structure Ranking where
  rank : Nat
  team : String
  wins : Int
  losses : Nat
  score : ℚ
deriving Repr, DecidableEq

/-- The tail of get_rankings once both solver phases have run: ratings
for FBS teams in registry order, ascending sort, then 1-based
enumeration. -/
def rankTable (r2 : Registry) : Option (List Ranking) :=
  match buildRatings r2 (r2.filter (fun t => t.is_fbs)) with
  | none => none
  | some ratings =>
    let sorted := ratings.mergeSort (fun a b => decide (ratingLe a b))
    some (sorted.enum.map (fun p =>
      { rank := p.1 + 1, team := p.2.2.2.2, wins := -p.2.2.1,
        losses := p.2.2.2.1, score := -p.2.1 }))

/-- Team.get_rankings: phase A over FBS teams, 1000 recursive-sos passes,
then the sorted, 1-based table. -/
def Team.get_rankings (r : Registry) : Option (List Ranking) :=
  rankTable (calculate_recursive_sos 1000 (phaseA r))

/-- One parsed game object from the API response, as read by
lambda_handler: team names, division strings and nullable point totals. -/
structure GameRecord where
  home_team : String
  home_division : String
  away_team : String
  away_division : String
  home_points : Option Int
  away_points : Option Int
deriving Repr, DecidableEq

/-- The ingestion loop of lambda_handler: record every game whose two
point totals are both present, starting from the registry state the
process already holds. -/
def ingest (r : Registry) (games : List GameRecord) : Registry :=
  games.foldl
    (fun acc g =>
      match g.home_points, g.away_points with
      | some hp, some ap =>
          record_game acc g.home_team (g.home_division == "fbs")
            g.away_team (g.away_division == "fbs") hp ap
      | _, _ => acc)
    r

/-- The core of lambda_handler after the network fetch: Team.teams is a
class attribute of Team, so it persists across lambda_handler calls in
one process and the handler never clears it; ingestion therefore starts
from the registry state teams0 left over from earlier invocations.
Returns the registry as the handler leaves it, plus the rankings body. -/
def lambda_handler_core (teams0 : Registry) (games : List GameRecord) :
    Registry × Option (List Ranking) :=
  let r := ingest teams0 games
  (r, Team.get_rankings r)

/-! Derived notions used to state the claims. -/

/-- The data signature of a team apart from its sos value. The solver
phases only rewrite sos, so they preserve this signature pointwise. -/
def Team.skel (t : Team) : String × Bool × List (String × Int) × Nat × Nat :=
  (t.name, t.is_fbs, t.games, t.wins, t.losses)

/-- Every opponent key appearing in some game map names a team of the
registry. Registries grown only through record_game have this shape. -/
def closedReg (r : Registry) : Prop :=
  ∀ t ∈ r, ∀ p ∈ t.games, (findTeam r p.1).isSome

instance (r : Registry) : Decidable (closedReg r) := by
  unfold closedReg; infer_instance

/-- Every team of the registry has its sos inside the unit interval. -/
def sosInRange (r : Registry) : Prop :=
  ∀ t ∈ r, 0 ≤ t.sos ∧ t.sos ≤ 1

instance (r : Registry) : Decidable (sosInRange r) := by
  unfold sosInRange; infer_instance

/-- The sum of the opponents' sos values over a game map, an absent
opponent contributing 0; the spec words the per-pass average this way. -/
def oppSosSum (r : Registry) (gs : List (String × Int)) : ℚ :=
  (gs.map (fun p => ((findTeam r p.1).map Team.sos).getD 0)).sum

/-- The signed margin a game contributes to the map entry of the team
that was recorded first (the home side). -/
def entry (r : Registry) (a b : String) : Option Int :=
  match findTeam r a with
  | some t => lookupGame t.games b
  | none => none

/-- One fully-scored game, the shape record_game consumes. -/
structure GameInput where
  home_name : String
  home_fbs : Bool
  away_name : String
  away_fbs : Bool
  home_points : Int
  away_points : Int
deriving Repr, DecidableEq

/-- record_game applied to one GameInput. -/
def applyGame (r : Registry) (g : GameInput) : Registry :=
  record_game r g.home_name g.home_fbs g.away_name g.away_fbs g.home_points g.away_points

/-- The registry produced by a fresh run that records the given games in
order. -/
def builtFrom (gs : List GameInput) : Registry :=
  gs.foldl applyGame []

/-- Whether a game is a meeting of the two named teams, in either
orientation. -/
def isPairing (a b : String) (g : GameInput) : Bool :=
  (g.home_name == a && g.away_name == b) || (g.home_name == b && g.away_name == a)

/-- The last recorded game between the two named teams, if any. -/
def lastPairing (gs : List GameInput) (a b : String) : Option GameInput :=
  (gs.filter (isPairing a b)).getLast?

/-- The standing shape of a registry grown only through record_game:
unique team names, every recorded opponent present, mirrored game maps
with negated margins, and unique opponent keys per team. -/
def recordInv (r : Registry) : Prop :=
  (r.map Team.name).Nodup ∧ closedReg r ∧
  (∀ a b : String, entry r b a = (entry r a b).map (fun m => -m)) ∧
  (∀ t ∈ r, (t.games.map Prod.fst).Nodup)

/-- The per-game contribution of Team.rank_score as the spec words it:
the home/away probe reads the sign of the opponent's reverse entry, a win
adds weight x (opponent wins + sos) x bonus, a loss or tie subtracts
weight x (opponent losses + sos) x penalty. -/
def scoreTermSpec (r : Registry) (t : Team) (p : String × Int) : ℚ :=
  match findTeam r p.1 with
  | none => 0
  | some opp =>
    let isHome : Bool := (lookupGame opp.games t.name).any (fun m => m < 0)
    if 0 < p.2 then
      (if isHome then (0.9 : ℚ) else (1.1 : ℚ))
        * ((opp.wins : ℚ) + opp.sos) * (1 + (0.2 : ℚ) * (min ((p.2 : ℚ)) 7 / 21) ^ 2)
    else
      -((if isHome then (1.1 : ℚ) else (0.9 : ℚ))
        * ((opp.losses : ℚ) + opp.sos) * (1 + (1.0 : ℚ) * (min |(p.2 : ℚ)| 28 / 28) ^ 2))

/-- Team.rank_score as the spec words it: the per-game sum scaled to a
12-game-equivalent schedule, 0 for a team with no recorded games. -/
def rank_score_spec (r : Registry) (t : Team) : ℚ :=
  if t.games.length = 0 then 0
  else (12 / (t.games.length : ℚ)) * (t.games.map (scoreTermSpec r t)).sum

/-- The per-game contribution of Team.rank_score with the home/away
weight replaced by the constant 0.9 in both branches. -/
def scoreTermFixed (r : Registry) (_t : Team) (p : String × Int) : ℚ :=
  match findTeam r p.1 with
  | none => 0
  | some opponent_team =>
    if 0 < p.2 then
      ((9 : ℚ) / 10) * ((opponent_team.wins : ℚ) + opponent_team.sos)
        * Team.calculate_bonus p.2
    else
      -(((9 : ℚ) / 10) * ((opponent_team.losses : ℚ) + opponent_team.sos)
        * Team.calculate_penalty p.2)

/-- Team.rank_score with the home/away weight fixed at 0.9. -/
def rank_score_fixed (r : Registry) (t : Team) : Option ℚ :=
  if ∀ p ∈ t.games, (findTeam r p.1).isSome then
    some (if 0 < t.games.length then
      (12 / (t.games.length : ℚ)) * (t.games.map (scoreTermFixed r t)).sum
    else 0)
  else none

/-- Games of the first invocation of the process: one finished game
between TeamA and TeamB. -/
def invOneGames : List GameRecord :=
  [{ home_team := "TeamA", home_division := "fbs", away_team := "TeamB",
     away_division := "fbs", home_points := some 30, away_points := some 10 }]

/-- Games of the second invocation of the same process: one finished game
between two different teams, TeamC and TeamD. -/
def invTwoGames : List GameRecord :=
  [{ home_team := "TeamC", home_division := "fbs", away_team := "TeamD",
     away_division := "fbs", home_points := some 21, away_points := some 14 }]

/-- The rating row get_rankings builds for one team. -/
def ratingOf (r : Registry) (t : Team) : Rating :=
  (-(rank_score_val r t), -(t.wins : Int), t.losses, t.name)

/-- The sort key recovered from an output record: the tuple
(-score, -wins, losses, name) the spec sorts by. -/
def ratingOfRanking (a : Ranking) : Rating :=
  (-a.score, -a.wins, a.losses, a.team)

/-- The team the spec expects at position i after one Gauss-Seidel pass:
an FBS team carries the mean of its recorded opponents' sos read from
the state in which the first i teams were already updated (0 with no
games); a non-FBS team is untouched. -/
def gaussSeidelTeam (r : Registry) (i : Nat) (t : Team) : Team :=
  if t.is_fbs then
    { t with sos :=
        if t.games = [] then 0
        else oppSosSum (sosPassAt r i) t.games / ((t.games.length : ℚ)) }
  else t

/-- A small schedule used to instantiate the claims: A beats B 30-10,
then B beats C 20-17, all three top-tier. -/
def demoGames : List GameInput :=
  [{ home_name := "A", home_fbs := true, away_name := "B", away_fbs := true,
     home_points := 30, away_points := 10 },
   { home_name := "B", home_fbs := true, away_name := "C", away_fbs := true,
     home_points := 20, away_points := 17 }]

/-! Basic lemmas about registry lookups and updates. -/

theorem findTeam_nil (n : String) : findTeam [] n = none := rfl

theorem findTeam_cons (t : Team) (r : Registry) (n : String) :
    findTeam (t :: r) n = if t.name = n then some t else findTeam r n := by
  by_cases h : t.name = n
  · simp [findTeam, List.find?_cons_of_pos, h]
  · simp [findTeam, List.find?_cons_of_neg, h]

theorem findTeam_append (r s : Registry) (n : String) :
    findTeam (r ++ s) n = (findTeam r n).or (findTeam s n) := by
  induction r with
  | nil => simp [findTeam]
  | cons t r ih =>
    by_cases h : t.name = n
    · simp [findTeam_cons, h]
    · simpa [findTeam_cons, h] using ih

theorem findTeam_name (r : Registry) (n : String) (t : Team)
    (h : findTeam r n = some t) : t.name = n ∧ t ∈ r := by
  refine ⟨?_, List.mem_of_find?_eq_some h⟩
  have := List.find?_some h
  simpa using this

theorem findTeam_isSome_iff (r : Registry) (n : String) :
    (findTeam r n).isSome ↔ n ∈ r.map Team.name := by
  induction r with
  | nil => simp [findTeam]
  | cons t r ih =>
    by_cases h : t.name = n
    · simp [findTeam_cons, h]
    · simp [findTeam_cons, h, ih, Ne.symm h]

theorem findTeam_of_mem (r : Registry) (t : Team)
    (hnd : (r.map Team.name).Nodup) (ht : t ∈ r) : findTeam r t.name = some t := by
  induction r with
  | nil => cases ht
  | cons u r ih =>
    rcases List.mem_cons.mp ht with h | h
    · subst h; simp [findTeam_cons]
    · have hne : u.name ≠ t.name := by
        intro he
        have : t.name ∈ r.map Team.name := List.mem_map_of_mem Team.name h
        rw [← he] at this
        exact (List.nodup_cons.mp hnd).1 this
      rw [findTeam_cons, if_neg hne]
      exact ih (List.nodup_cons.mp hnd).2 h

theorem updateTeam_cons (t : Team) (r : Registry) (n : String) (f : Team → Team) :
    updateTeam (t :: r) n f = (if t.name = n then f t else t) :: updateTeam r n f := rfl

theorem findTeam_updateTeam (r : Registry) (n m : String) (f : Team → Team)
    (hf : ∀ t, (f t).name = t.name) :
    findTeam (updateTeam r n f) m =
      if m = n then (findTeam r n).map f else findTeam r m := by
  induction r with
  | nil => by_cases hmn : m = n <;> simp [findTeam, updateTeam, hmn]
  | cons t r ih =>
    rw [updateTeam_cons, findTeam_cons]
    by_cases hmn : m = n
    · subst hmn
      by_cases ht : t.name = m
      · simp [ht, hf t, findTeam_cons]
      · simp only [if_neg ht, if_neg ht, findTeam_cons]
        simpa [ht] using ih
    · by_cases ht : t.name = n
      · have h2 : (f t).name ≠ m := by
          rw [hf t, ht]; exact fun e => hmn e.symm
        simp only [if_pos ht, if_neg h2, findTeam_cons]
        have h3 : t.name ≠ m := by rw [ht]; exact fun e => hmn e.symm
        simpa [hmn, h3] using ih
      · by_cases h3 : t.name = m
        · simp [if_neg ht, h3, findTeam_cons, hmn]
        · simp only [if_neg ht, if_neg h3, findTeam_cons]
          simpa [hmn, h3] using ih

theorem findTeam_updateTeam_self (r : Registry) (n : String) (f : Team → Team)
    (hf : ∀ t, (f t).name = t.name) :
    findTeam (updateTeam r n f) n = (findTeam r n).map f := by
  rw [findTeam_updateTeam r n n f hf, if_pos rfl]

theorem findTeam_updateTeam_ne (r : Registry) (n m : String) (f : Team → Team)
    (hf : ∀ t, (f t).name = t.name) (hne : m ≠ n) :
    findTeam (updateTeam r n f) m = findTeam r m := by
  rw [findTeam_updateTeam r n m f hf, if_neg hne]

theorem updateTeam_map_name (r : Registry) (n : String) (f : Team → Team)
    (hf : ∀ t, (f t).name = t.name) :
    (updateTeam r n f).map Team.name = r.map Team.name := by
  unfold updateTeam
  rw [List.map_map]
  apply List.map_congr_left
  intro t _
  by_cases h : t.name = n <;> simp [h, hf t]

/-! Lemmas about game-map updates. -/

theorem lookupGame_cons (q : String × Int) (gs : List (String × Int)) (j : String) :
    lookupGame (q :: gs) j = if q.1 = j then some q.2 else lookupGame gs j := by
  by_cases h : q.1 = j
  · simp [lookupGame, List.find?_cons_of_pos, h]
  · simp [lookupGame, List.find?_cons_of_neg, h]

theorem lookupGame_append (gs hs : List (String × Int)) (j : String) :
    lookupGame (gs ++ hs) j = (lookupGame gs j).or (lookupGame hs j) := by
  induction gs with
  | nil => simp [lookupGame]
  | cons q gs ih =>
    by_cases h : q.1 = j
    · simp [lookupGame_cons, h]
    · simpa [lookupGame_cons, h] using ih

theorem lookupGame_isSome_iff (gs : List (String × Int)) (j : String) :
    (lookupGame gs j).isSome ↔ j ∈ gs.map Prod.fst := by
  induction gs with
  | nil => simp [lookupGame]
  | cons q gs ih =>
    by_cases h : q.1 = j
    · simp [lookupGame_cons, h]
    · simp [lookupGame_cons, h, ih, Ne.symm h]

theorem lookup_overwriteMap (gs : List (String × Int)) (k j : String) (v : Int) :
    lookupGame (gs.map fun p => if p.1 = k then (k, v) else p) j =
      if j = k then (lookupGame gs j).map (fun _ => v) else lookupGame gs j := by
  induction gs with
  | nil => by_cases hjk : j = k <;> simp [lookupGame, hjk]
  | cons q gs ih =>
    rw [List.map_cons]
    by_cases hq : q.1 = k
    · rw [if_pos hq]
      by_cases hjk : j = k
      · subst hjk
        simp [lookupGame_cons, hq, ih]
      · have : (k : String) ≠ j := fun e => hjk e.symm
        have h3 : q.1 ≠ j := by rw [hq]; exact this
        simp [lookupGame_cons, hjk, this, h3, ih]
    · rw [if_neg hq]
      by_cases h3 : q.1 = j
      · by_cases hjk : j = k
        · exact absurd (h3.trans hjk) hq
        · simp [lookupGame_cons, h3, hjk]
      · simp [lookupGame_cons, h3, ih]

theorem lookupGame_setGame_self (gs : List (String × Int)) (k : String) (v : Int) :
    lookupGame (setGame gs k v) k = some v := by
  unfold setGame
  by_cases h : gs.any (fun p => p.1 = k)
  · rw [if_pos h, lookup_overwriteMap, if_pos rfl]
    rcases List.any_eq_true.mp h with ⟨p, hp, hpk⟩
    have hpk : p.1 = k := by simpa using hpk
    have : (lookupGame gs k).isSome := by
      rw [lookupGame_isSome_iff]
      exact hpk ▸ List.mem_map_of_mem Prod.fst hp
    rcases Option.isSome_iff_exists.mp this with ⟨w, hw⟩
    rw [hw]; rfl
  · rw [if_neg h, lookupGame_append]
    have hnone : lookupGame gs k = none := by
      rw [← Option.not_isSome_iff_eq_none]
      intro hs
      rw [lookupGame_isSome_iff] at hs
      rcases List.mem_map.mp hs with ⟨p, hp, hpk⟩
      apply h
      rw [List.any_eq_true]
      exact ⟨p, hp, by simpa using hpk⟩
    rw [hnone]
    simp [lookupGame_cons]

theorem lookupGame_setGame_ne (gs : List (String × Int)) (k j : String) (v : Int)
    (hne : j ≠ k) : lookupGame (setGame gs k v) j = lookupGame gs j := by
  unfold setGame
  by_cases h : gs.any (fun p => p.1 = k)
  · rw [if_pos h, lookup_overwriteMap, if_neg hne]
  · rw [if_neg h, lookupGame_append]
    have : lookupGame [(k, v)] j = none := by
      simp [lookupGame_cons, lookupGame, Ne.symm hne]
    rw [this]
    cases lookupGame gs j <;> rfl

theorem setGame_keys (gs : List (String × Int)) (k : String) (v : Int) :
    (setGame gs k v).map Prod.fst = gs.map Prod.fst
      ∨ ((setGame gs k v).map Prod.fst = gs.map Prod.fst ++ [k] ∧ k ∉ gs.map Prod.fst) := by
  unfold setGame
  by_cases h : gs.any (fun p => p.1 = k)
  · left
    rw [if_pos h, List.map_map]
    apply List.map_congr_left
    intro p _
    by_cases h2 : p.1 = k <;> simp [h2]
  · right
    rw [if_neg h]
    constructor
    · simp
    · intro hk
      rcases List.mem_map.mp hk with ⟨p, hp, hpk⟩
      exact h (List.any_eq_true.mpr ⟨p, hp, by simpa using hpk⟩)

theorem lookupGame_of_mem (gs : List (String × Int)) (p : String × Int)
    (hnd : (gs.map Prod.fst).Nodup) (hp : p ∈ gs) : lookupGame gs p.1 = some p.2 := by
  induction gs with
  | nil => cases hp
  | cons q gs ih =>
    rcases List.mem_cons.mp hp with h | h
    · subst h
      simp [lookupGame, List.find?_cons_of_pos]
    · have hq : q.1 ≠ p.1 := by
        intro he
        have : p.1 ∈ gs.map Prod.fst := List.mem_map_of_mem Prod.fst h
        rw [← he] at this
        exact (List.nodup_cons.mp hnd).1 this
      have := ih (List.nodup_cons.mp hnd).2 h
      simpa [lookupGame, List.find?_cons_of_neg, hq] using this

/-! The solver phases only rewrite sos, so they preserve the rest of each
team pointwise; this is captured through Team.skel. -/

theorem calculate_initial_sos_skel (r : Registry) (t : Team) :
    (t.calculate_initial_sos r).skel = t.skel := by
  unfold Team.calculate_initial_sos
  split <;> rfl

theorem recursive_sos_update_skel (r : Registry) (t : Team) :
    (t.recursive_sos_update r).skel = t.skel := by
  unfold Team.recursive_sos_update
  split <;> rfl

theorem name_of_skel {t u : Team} (h : t.skel = u.skel) : t.name = u.name :=
  congrArg (fun s => s.1) h

theorem updateTeam_map_skel (r : Registry) (n : String) (f : Team → Team)
    (hf : ∀ t, (f t).skel = t.skel) :
    (updateTeam r n f).map Team.skel = r.map Team.skel := by
  unfold updateTeam
  rw [List.map_map]
  apply List.map_congr_left
  intro t _
  by_cases h : t.name = n <;> simp [h, hf t]

theorem foldl_map_skel (step : Registry → String → Registry)
    (hstep : ∀ acc n, (step acc n).map Team.skel = acc.map Team.skel) :
    ∀ (l : List String) (acc : Registry),
      ((l.foldl step acc).map Team.skel) = acc.map Team.skel := by
  intro l
  induction l with
  | nil => intro acc; rfl
  | cons n l ih =>
    intro acc
    rw [List.foldl_cons, ih, hstep]

theorem initStep_map_skel (acc : Registry) (n : String) :
    (initStep acc n).map Team.skel = acc.map Team.skel := by
  apply updateTeam_map_skel
  intro t
  by_cases h : t.is_fbs <;> simp [h, calculate_initial_sos_skel]

theorem sosStep_map_skel (acc : Registry) (n : String) :
    (sosStep acc n).map Team.skel = acc.map Team.skel :=
  updateTeam_map_skel acc n _ (fun t => recursive_sos_update_skel acc t)

theorem phaseA_map_skel (r : Registry) :
    (phaseA r).map Team.skel = r.map Team.skel :=
  foldl_map_skel initStep initStep_map_skel (r.map Team.name) r

theorem sosPass_map_skel (r : Registry) :
    (sosPass r).map Team.skel = r.map Team.skel :=
  foldl_map_skel sosStep sosStep_map_skel (r.map Team.name) r

theorem sosPassAt_map_skel (r : Registry) (i : Nat) :
    (sosPassAt r i).map Team.skel = r.map Team.skel :=
  foldl_map_skel sosStep sosStep_map_skel ((r.map Team.name).take i) r

theorem iterate_sosPass_map_skel (r : Registry) (k : Nat) :
    (sosPass^[k] r).map Team.skel = r.map Team.skel := by
  induction k with
  | zero => rfl
  | succ k ih =>
    rw [Function.iterate_succ_apply', sosPass_map_skel, ih]

theorem solved_map_skel (r : Registry) :
    (calculate_recursive_sos 1000 (phaseA r)).map Team.skel = r.map Team.skel := by
  unfold calculate_recursive_sos
  rw [iterate_sosPass_map_skel, phaseA_map_skel]

/-! Transfer lemmas along skeleton equality. -/

theorem map_name_of_map_skel {r s : Registry}
    (h : r.map Team.skel = s.map Team.skel) : r.map Team.name = s.map Team.name := by
  have h1 : r.map Team.name = (r.map Team.skel).map (fun q => q.1) := by
    rw [List.map_map]; rfl
  have h2 : s.map Team.name = (s.map Team.skel).map (fun q => q.1) := by
    rw [List.map_map]; rfl
  rw [h1, h2, h]

theorem findTeam_map_skel {r s : Registry} (n : String)
    (h : r.map Team.skel = s.map Team.skel) :
    (findTeam r n).map Team.skel = (findTeam s n).map Team.skel := by
  induction r generalizing s with
  | nil =>
    cases s with
    | nil => rfl
    | cons u s => simp at h
  | cons t r ih =>
    cases s with
    | nil => simp at h
    | cons u s =>
      rw [List.map_cons, List.map_cons] at h
      have hh : t.skel = u.skel := (List.cons.injEq _ _ _ _ ▸ h).1
      have ht : r.map Team.skel = s.map Team.skel := (List.cons.injEq _ _ _ _ ▸ h).2
      rw [findTeam_cons, findTeam_cons, name_of_skel hh]
      by_cases hn : u.name = n
      · simp [hn, hh]
      · simp only [if_neg hn]
        exact ih ht

theorem mem_skel_of_mem {r s : Registry} (t : Team)
    (h : r.map Team.skel = s.map Team.skel) (ht : t ∈ r) :
    ∃ u ∈ s, t.skel = u.skel := by
  have : t.skel ∈ s.map Team.skel := h ▸ List.mem_map_of_mem Team.skel ht
  rcases List.mem_map.mp this with ⟨u, hu, he⟩
  exact ⟨u, hu, he.symm⟩

theorem closedReg_of_map_skel {r s : Registry}
    (h : r.map Team.skel = s.map Team.skel) (hc : closedReg s) : closedReg r := by
  intro t ht p hp
  rcases mem_skel_of_mem t h ht with ⟨u, hu, he⟩
  have hg : t.games = u.games := congrArg (fun q => q.2.2.1) he
  have := hc u hu p (hg ▸ hp)
  rw [findTeam_isSome_iff] at this ⊢
  rw [map_name_of_map_skel h]
  exact this

theorem filter_fbs_map_skel {r s : Registry}
    (h : r.map Team.skel = s.map Team.skel) :
    (r.filter (fun t => t.is_fbs)).map Team.skel
      = (s.filter (fun t => t.is_fbs)).map Team.skel := by
  induction r generalizing s with
  | nil =>
    cases s with
    | nil => rfl
    | cons u s => simp at h
  | cons t r ih =>
    cases s with
    | nil => simp at h
    | cons u s =>
      rw [List.map_cons, List.map_cons] at h
      have hh : t.skel = u.skel := (List.cons.injEq _ _ _ _ ▸ h).1
      have ht : r.map Team.skel = s.map Team.skel := (List.cons.injEq _ _ _ _ ▸ h).2
      have hf : t.is_fbs = u.is_fbs := congrArg (fun q => q.2.1) hh
      by_cases hb : u.is_fbs
      · rw [List.filter_cons_of_pos (by simp [hf, hb]),
          List.filter_cons_of_pos (by simp [hb]), List.map_cons, List.map_cons,
          hh, ih ht]
      · rw [List.filter_cons_of_neg (by simp [hf, hb]),
          List.filter_cons_of_neg (by simp [hb])]
        exact ih ht

/-! Range lemmas for the two solver updates. -/

theorem calculate_initial_sos_range (r : Registry) (t : Team) :
    0 ≤ (t.calculate_initial_sos r).sos ∧ (t.calculate_initial_sos r).sos ≤ 1 := by
  unfold Team.calculate_initial_sos
  split
  · simp
  · set w := (opponentTotals r t.games).1 with hw
    set l := (opponentTotals r t.games).2 with hl
    by_cases h : 0 < w + l
    · have hpos : (0 : ℚ) < (w : ℚ) + (l : ℚ) := by
        have : (0 : ℚ) < ((w + l : Nat) : ℚ) := by exact_mod_cast h
        push_cast at this
        exact this
      constructor
      · simp only [if_pos h]
        exact div_nonneg (by positivity) (le_of_lt hpos)
      · simp only [if_pos h]
        rw [div_le_one hpos]
        have : (0 : ℚ) ≤ (l : ℚ) := by positivity
        linarith
    · simp [h]

theorem sosTotals_bounds (r : Registry) (hr : sosInRange r) :
    ∀ (gs : List (String × Int)) (a : ℚ × Nat), 0 ≤ a.1 → a.1 ≤ (a.2 : ℚ) →
      0 ≤ (gs.foldl
            (fun acc p =>
              match findTeam r p.1 with
              | some o => (acc.1 + o.sos, acc.2 + 1)
              | none => acc) a).1
      ∧ (gs.foldl
            (fun acc p =>
              match findTeam r p.1 with
              | some o => (acc.1 + o.sos, acc.2 + 1)
              | none => acc) a).1
        ≤ ((gs.foldl
            (fun acc p =>
              match findTeam r p.1 with
              | some o => (acc.1 + o.sos, acc.2 + 1)
              | none => acc) a).2 : ℚ) := by
  intro gs
  induction gs with
  | nil => intro a h0 h1; exact ⟨h0, h1⟩
  | cons p gs ih =>
    intro a h0 h1
    rw [List.foldl_cons]
    cases hfp : findTeam r p.1 with
    | none => simpa [hfp] using ih a h0 h1
    | some o =>
      have ho : o ∈ r := (findTeam_name r p.1 o hfp).2
      have hrange := hr o ho
      have h0' : 0 ≤ a.1 + o.sos := by linarith [hrange.1]
      have h1' : a.1 + o.sos ≤ ((a.2 + 1 : Nat) : ℚ) := by
        push_cast
        linarith [hrange.2]
      simpa [hfp] using ih (a.1 + o.sos, a.2 + 1) h0' h1'

theorem sosTotals_range (r : Registry) (gs : List (String × Int)) (hr : sosInRange r) :
    0 ≤ (sosTotals r gs).1 ∧ (sosTotals r gs).1 ≤ ((sosTotals r gs).2 : ℚ) := by
  have := sosTotals_bounds r hr gs (0, 0) le_rfl (by simp)
  simpa [sosTotals] using this

theorem recursive_sos_update_range (r : Registry) (t : Team) (hr : sosInRange r)
    (h0 : 0 ≤ t.sos ∧ t.sos ≤ 1) :
    0 ≤ (t.recursive_sos_update r).sos ∧ (t.recursive_sos_update r).sos ≤ 1 := by
  unfold Team.recursive_sos_update
  by_cases hb : t.is_fbs
  · simp only [if_pos hb]
    rcases sosTotals_range r t.games hr with ⟨hs0, hs1⟩
    by_cases hc : 0 < (sosTotals r t.games).2
    · have hcpos : (0 : ℚ) < ((sosTotals r t.games).2 : ℚ) := by exact_mod_cast hc
      constructor
      · simp only [if_pos hc]
        exact div_nonneg hs0 (le_of_lt hcpos)
      · simp only [if_pos hc]
        rw [div_le_one hcpos]
        exact hs1
    · simp [hc]
  · simpa [hb] using h0

/-! sosInRange is preserved by every solver step. -/

theorem sosInRange_updateTeam (acc : Registry) (n : String) (f : Team → Team)
    (hacc : sosInRange acc)
    (hf : ∀ t ∈ acc, 0 ≤ (f t).sos ∧ (f t).sos ≤ 1) :
    sosInRange (updateTeam acc n f) := by
  intro t' ht'
  rcases List.mem_map.mp ht' with ⟨t, ht, he⟩
  by_cases h : t.name = n
  · rw [← he, if_pos h]
    exact hf t ht
  · rw [← he, if_neg h]
    exact hacc t ht

theorem sosInRange_initStep (acc : Registry) (n : String) (hacc : sosInRange acc) :
    sosInRange (initStep acc n) := by
  apply sosInRange_updateTeam acc n _ hacc
  intro t ht
  by_cases hb : t.is_fbs
  · simpa [hb] using calculate_initial_sos_range acc t
  · simpa [hb] using hacc t ht

theorem sosInRange_sosStep (acc : Registry) (n : String) (hacc : sosInRange acc) :
    sosInRange (sosStep acc n) := by
  apply sosInRange_updateTeam acc n _ hacc
  intro t ht
  exact recursive_sos_update_range acc t hacc (hacc t ht)

theorem sosInRange_foldl (step : Registry → String → Registry)
    (hstep : ∀ acc n, sosInRange acc → sosInRange (step acc n)) :
    ∀ (l : List String) (acc : Registry), sosInRange acc →
      sosInRange (l.foldl step acc) := by
  intro l
  induction l with
  | nil => intro acc h; exact h
  | cons n l ih =>
    intro acc h
    rw [List.foldl_cons]
    exact ih (step acc n) (hstep acc n h)

theorem sosInRange_phaseA (r : Registry) (hr : sosInRange r) : sosInRange (phaseA r) :=
  sosInRange_foldl initStep sosInRange_initStep (r.map Team.name) r hr

theorem sosInRange_sosPass (r : Registry) (hr : sosInRange r) : sosInRange (sosPass r) :=
  sosInRange_foldl sosStep sosInRange_sosStep (r.map Team.name) r hr

theorem sosInRange_iterate (r : Registry) (hr : sosInRange r) (k : Nat) :
    sosInRange (sosPass^[k] r) := by
  induction k with
  | zero => exact hr
  | succ k ih =>
    rw [Function.iterate_succ_apply']
    exact sosInRange_sosPass _ ih

/-- C2: for every team in the registry, starting from sos 0 at creation,
the sos value stays inside the unit interval after Phase A and after each
of Phase B's in-place passes. -/
theorem claim_c2_sos_unit_interval (r : Registry) (h0 : ∀ t ∈ r, t.sos = 0) :
    (∀ n fbs, (newTeam n fbs).sos = 0) ∧
    sosInRange (phaseA r) ∧
    (∀ k, sosInRange (sosPass^[k] (phaseA r))) := by
  have hr : sosInRange r := by
    intro t ht
    rw [h0 t ht]
    exact ⟨le_rfl, by norm_num⟩
  exact ⟨fun n fbs => rfl, sosInRange_phaseA r hr,
    fun k => sosInRange_iterate _ (sosInRange_phaseA r hr) k⟩

/-- Witness for C2 on the concrete demo schedule, after Phase A and after
two Phase B passes. -/
theorem claim_c2_sos_unit_interval_witness :
    sosInRange (phaseA (builtFrom demoGames)) ∧
    sosInRange (sosPass^[2] (phaseA (builtFrom demoGames))) := by
  have h := claim_c2_sos_unit_interval (builtFrom demoGames) (by decide)
  exact ⟨h.2.1, h.2.2 2⟩

/-- C7: the penalty is monotone in the absolute margin and constant from
28 on, the bonus is constant from margin 7 on; in particular
penalty(28) = penalty(40) and bonus(7) = bonus(50). -/
theorem claim_c7_cap_plateaus :
    (∀ m1 m2 : Int, m1.natAbs ≤ m2.natAbs →
      Team.calculate_penalty m1 ≤ Team.calculate_penalty m2) ∧
    (∀ m : Int, 28 ≤ m.natAbs → Team.calculate_penalty m = Team.calculate_penalty 28) ∧
    (∀ m : Int, (7 : Int) ≤ m → Team.calculate_bonus m = Team.calculate_bonus 7) ∧
    Team.calculate_penalty 28 = Team.calculate_penalty 40 ∧
    Team.calculate_bonus 7 = Team.calculate_bonus 50 := by
  refine ⟨?_, ?_, ?_,
    by norm_num [Team.calculate_penalty, min_def],
    by norm_num [Team.calculate_bonus, min_def]⟩
  · intro m1 m2 h
    have h1 : ((m1.natAbs : ℚ)) ≤ ((m2.natAbs : ℚ)) := by exact_mod_cast h
    simp only [Team.calculate_penalty]
    have hmin : min ((m1.natAbs : ℚ)) 28 ≤ min ((m2.natAbs : ℚ)) 28 :=
      min_le_min h1 le_rfl
    have hnn : (0 : ℚ) ≤ min ((m1.natAbs : ℚ)) 28 :=
      le_min (by positivity) (by norm_num)
    gcongr
  · intro m h
    have hm : min ((m.natAbs : ℚ)) 28 = 28 := min_eq_right (by exact_mod_cast h)
    simp only [Team.calculate_penalty]
    rw [hm]
    norm_num [min_def]
  · intro m h
    have hm : min ((m : ℚ)) 7 = 7 := min_eq_right (by exact_mod_cast h)
    simp only [Team.calculate_bonus]
    rw [hm]
    norm_num [min_def]

/-- Witness for C7 at concrete margins. -/
theorem claim_c7_cap_plateaus_witness :
    Team.calculate_penalty 3 ≤ Team.calculate_penalty (-10) ∧
    Team.calculate_penalty (-40) = Team.calculate_penalty 28 ∧
    Team.calculate_bonus 50 = Team.calculate_bonus 7 := by
  exact ⟨claim_c7_cap_plateaus.1 3 (-10) (by decide),
    claim_c7_cap_plateaus.2.1 (-40) (by decide),
    claim_c7_cap_plateaus.2.2.1 50 (by decide)⟩

/-- C8: every division of the core is guarded: initial sos falls back to 0
for a team with no games or zero opponent totals, the recursive update
falls back to 0 for an FBS team with zero counted opponents, and
rank_score returns 0 for a team with no games. -/
theorem claim_c8_division_guards (r : Registry) (t : Team) :
    (t.games = [] → (t.calculate_initial_sos r).sos = 0) ∧
    ((opponentTotals r t.games).1 + (opponentTotals r t.games).2 = 0 →
      (t.calculate_initial_sos r).sos = 0) ∧
    (t.is_fbs = true → (sosTotals r t.games).2 = 0 →
      (t.recursive_sos_update r).sos = 0) ∧
    (t.games = [] → Team.rank_score r t = some 0) := by
  refine ⟨?_, ?_, ?_, ?_⟩
  · intro h
    unfold Team.calculate_initial_sos
    rw [if_pos h]
  · intro h
    unfold Team.calculate_initial_sos
    split
    · rfl
    · have : ¬0 < (opponentTotals r t.games).1 + (opponentTotals r t.games).2 := by
        omega
      simp [this]
  · intro hb h
    unfold Team.recursive_sos_update
    rw [if_pos hb]
    simp [h]
  · intro h
    unfold Team.rank_score
    rw [if_pos (by intro p hp; rw [h] at hp; cases hp)]
    unfold rank_score_val
    rw [h]
    simp

/-- Witness for C8 at a concrete fresh team with no games. -/
theorem claim_c8_division_guards_witness :
    ((newTeam "X" true).calculate_initial_sos []).sos = 0 ∧
    Team.rank_score [] (newTeam "X" true) = some 0 := by
  have h := claim_c8_division_guards [] (newTeam "X" true)
  exact ⟨h.1 rfl, h.2.2.2 rfl⟩

/-! Effect of one record_game call on the registry. -/

theorem add_game_name (t : Team) (o : String) (w : Bool) (s : Int) :
    (t.add_game o w s).name = t.name := rfl

theorem ensureTeam_findTeam_self (r : Registry) (n : String) (fbs : Bool) :
    findTeam (ensureTeam r n fbs) n = some ((findTeam r n).getD (newTeam n fbs)) := by
  unfold ensureTeam
  cases h : findTeam r n with
  | some v => simp [h]
  | none =>
    rw [if_neg (by simp [h])]
    rw [findTeam_append, h]
    rw [findTeam_cons]
    simp [newTeam]

theorem ensureTeam_findTeam_ne (r : Registry) (n : String) (fbs : Bool) (m : String)
    (hne : m ≠ n) : findTeam (ensureTeam r n fbs) m = findTeam r m := by
  unfold ensureTeam
  split
  · rfl
  · rw [findTeam_append]
    have hnone : findTeam [newTeam n fbs] m = none := by
      rw [findTeam_cons, if_neg (fun e => hne (by simpa [newTeam] using e.symm))]
      rfl
    rw [hnone]
    cases findTeam r m <;> rfl

theorem findTeam_updateTeam_addGame_self (r : Registry) (n o : String)
    (w : Bool) (s : Int) :
    findTeam (updateTeam r n (fun t => t.add_game o w s)) n
      = (findTeam r n).map (fun t => t.add_game o w s) :=
  findTeam_updateTeam_self r n _ (fun _ => rfl)

theorem findTeam_updateTeam_addGame_ne (r : Registry) (n m o : String)
    (w : Bool) (s : Int) (hne : m ≠ n) :
    findTeam (updateTeam r n (fun t => t.add_game o w s)) m = findTeam r m :=
  findTeam_updateTeam_ne r n m _ (fun _ => rfl) hne

theorem record_game_findTeam_home (r : Registry) (hn : String) (hf : Bool)
    (an : String) (af : Bool) (hp ap : Int) (hne : hn ≠ an) :
    findTeam (record_game r hn hf an af hp ap) hn =
      some (((findTeam r hn).getD (newTeam hn hf)).add_game an (decide (ap < hp))
        (hp - ap)) := by
  simp only [record_game]
  rw [findTeam_updateTeam_addGame_ne _ _ _ _ _ _ hne]
  rw [findTeam_updateTeam_addGame_self]
  rw [ensureTeam_findTeam_ne _ _ _ _ hne]
  rw [ensureTeam_findTeam_self]
  have hm : (if (decide (ap < hp)) = true then ((hp - ap).natAbs : Int)
      else -(((hp - ap).natAbs : Int))) = hp - ap := by
    by_cases h : ap < hp
    · rw [if_pos (by simpa using h)]
      omega
    · rw [if_neg (by simpa using h)]
      omega
  rw [Option.map_some']
  rw [hm]

theorem record_game_findTeam_away (r : Registry) (hn : String) (hf : Bool)
    (an : String) (af : Bool) (hp ap : Int) (hne : hn ≠ an) :
    findTeam (record_game r hn hf an af hp ap) an =
      some (((findTeam r an).getD (newTeam an af)).add_game hn (!decide (ap < hp))
        (ap - hp)) := by
  simp only [record_game]
  rw [findTeam_updateTeam_addGame_self]
  rw [findTeam_updateTeam_addGame_ne _ _ _ _ _ _ (Ne.symm hne)]
  rw [ensureTeam_findTeam_self]
  rw [ensureTeam_findTeam_ne _ _ _ _ (Ne.symm hne)]
  have hm : (if (decide (ap < hp)) = true then -(((hp - ap).natAbs : Int))
      else ((hp - ap).natAbs : Int)) = ap - hp := by
    by_cases h : ap < hp
    · rw [if_pos (by simpa using h)]
      omega
    · rw [if_neg (by simpa using h)]
      omega
  rw [Option.map_some']
  rw [hm]

theorem record_game_findTeam_other (r : Registry) (hn : String) (hf : Bool)
    (an : String) (af : Bool) (hp ap : Int) (m : String)
    (hm1 : m ≠ hn) (hm2 : m ≠ an) :
    findTeam (record_game r hn hf an af hp ap) m = findTeam r m := by
  simp only [record_game]
  rw [findTeam_updateTeam_addGame_ne _ _ _ _ _ _ hm2]
  rw [findTeam_updateTeam_addGame_ne _ _ _ _ _ _ hm1]
  rw [ensureTeam_findTeam_ne _ _ _ _ hm2]
  rw [ensureTeam_findTeam_ne _ _ _ _ hm1]

/-- C3: recording two games for the same ordered pair leaves exactly one
map entry per side, holding the second game's signed margin, while the
win and loss counters accumulate over both games. -/
theorem claim_c3_rematch_overwrites (A B : String) (fA fB fA2 fB2 : Bool)
    (h1 a1 h2 a2 : Int) (hne : A ≠ B) :
    ∃ tA tB,
      findTeam (record_game (record_game [] A fA B fB h1 a1) A fA2 B fB2 h2 a2) A
          = some tA ∧
      findTeam (record_game (record_game [] A fA B fB h1 a1) A fA2 B fB2 h2 a2) B
          = some tB ∧
      tA.games = [(B, h2 - a2)] ∧ tB.games = [(A, a2 - h2)] ∧
      tA.wins = ((if a1 < h1 then 1 else 0) + (if a2 < h2 then 1 else 0)) ∧
      tA.losses = ((if a1 < h1 then 0 else 1) + (if a2 < h2 then 0 else 1)) ∧
      tB.wins = ((if a1 < h1 then 0 else 1) + (if a2 < h2 then 0 else 1)) ∧
      tB.losses = ((if a1 < h1 then 1 else 0) + (if a2 < h2 then 1 else 0)) := by
  have e1 := record_game_findTeam_home [] A fA B fB h1 a1 hne
  have e2 := record_game_findTeam_away [] A fA B fB h1 a1 hne
  have e3 := record_game_findTeam_home (record_game [] A fA B fB h1 a1)
    A fA2 B fB2 h2 a2 hne
  have e4 := record_game_findTeam_away (record_game [] A fA B fB h1 a1)
    A fA2 B fB2 h2 a2 hne
  rw [e1] at e3
  rw [e2] at e4
  refine ⟨_, _, e3, e4, ?_, ?_, ?_, ?_, ?_, ?_⟩
  all_goals
    by_cases hg1 : a1 < h1 <;> by_cases hg2 : a2 < h2 <;>
      simp [Team.add_game, newTeam, findTeam, setGame, hg1, hg2]

/-- Witness for C3: A hosts B twice, winning 10-0 then losing 3-7. -/
theorem claim_c3_rematch_overwrites_witness :
    ∃ tA tB,
      findTeam (record_game (record_game [] "A" true "B" true 10 0)
          "A" true "B" true 3 7) "A" = some tA ∧
      findTeam (record_game (record_game [] "A" true "B" true 10 0)
          "A" true "B" true 3 7) "B" = some tB ∧
      tA.games = [("B", 3 - 7)] ∧ tB.games = [("A", 7 - 3)] ∧
      tA.wins = ((if (0 : Int) < 10 then 1 else 0) + (if (7 : Int) < 3 then 1 else 0)) ∧
      tA.losses = ((if (0 : Int) < 10 then 0 else 1) + (if (7 : Int) < 3 then 0 else 1)) ∧
      tB.wins = ((if (0 : Int) < 10 then 0 else 1) + (if (7 : Int) < 3 then 0 else 1)) ∧
      tB.losses = ((if (0 : Int) < 10 then 1 else 0) + (if (7 : Int) < 3 then 1 else 0)) :=
  claim_c3_rematch_overwrites "A" "B" true true true true 10 0 3 7 (by decide)

/-! Entry-level effect of record_game, and shape preservation. -/

theorem add_game_games (t : Team) (o : String) (w : Bool) (s : Int) :
    (t.add_game o w s).games = setGame t.games o s := rfl

theorem record_game_entry_home (r : Registry) (hn : String) (hf : Bool)
    (an : String) (af : Bool) (hp ap : Int) (hne : hn ≠ an) (b : String) :
    entry (record_game r hn hf an af hp ap) hn b
      = if b = an then some (hp - ap) else entry r hn b := by
  unfold entry
  rw [record_game_findTeam_home r hn hf an af hp ap hne]
  by_cases hb : b = an
  · rw [if_pos hb]
    show lookupGame (setGame ((findTeam r hn).getD (newTeam hn hf)).games an (hp - ap)) b
      = some (hp - ap)
    rw [hb]
    exact lookupGame_setGame_self _ _ _
  · rw [if_neg hb]
    show lookupGame (setGame ((findTeam r hn).getD (newTeam hn hf)).games an (hp - ap)) b
      = _
    rw [lookupGame_setGame_ne _ _ _ _ hb]
    cases hft : findTeam r hn with
    | some t => simp
    | none => simp [newTeam, lookupGame]

theorem record_game_entry_away (r : Registry) (hn : String) (hf : Bool)
    (an : String) (af : Bool) (hp ap : Int) (hne : hn ≠ an) (b : String) :
    entry (record_game r hn hf an af hp ap) an b
      = if b = hn then some (ap - hp) else entry r an b := by
  unfold entry
  rw [record_game_findTeam_away r hn hf an af hp ap hne]
  by_cases hb : b = hn
  · rw [if_pos hb]
    show lookupGame (setGame ((findTeam r an).getD (newTeam an af)).games hn (ap - hp)) b
      = some (ap - hp)
    rw [hb]
    exact lookupGame_setGame_self _ _ _
  · rw [if_neg hb]
    show lookupGame (setGame ((findTeam r an).getD (newTeam an af)).games hn (ap - hp)) b
      = _
    rw [lookupGame_setGame_ne _ _ _ _ hb]
    cases hft : findTeam r an with
    | some t => simp
    | none => simp [newTeam, lookupGame]

theorem record_game_entry_other (r : Registry) (hn : String) (hf : Bool)
    (an : String) (af : Bool) (hp ap : Int) (m : String)
    (hm1 : m ≠ hn) (hm2 : m ≠ an) (b : String) :
    entry (record_game r hn hf an af hp ap) m b = entry r m b := by
  unfold entry
  rw [record_game_findTeam_other r hn hf an af hp ap m hm1 hm2]

theorem record_game_entry_preserve (r : Registry) (hn : String) (hf : Bool)
    (an : String) (af : Bool) (hp ap : Int) (hne : hn ≠ an) (x y : String)
    (h1 : ¬(x = hn ∧ y = an)) (h2 : ¬(x = an ∧ y = hn)) :
    entry (record_game r hn hf an af hp ap) x y = entry r x y := by
  by_cases hx1 : x = hn
  · subst hx1
    have hy : y ≠ an := fun e => h1 ⟨rfl, e⟩
    rw [record_game_entry_home r x hf an af hp ap hne y, if_neg hy]
  · by_cases hx2 : x = an
    · subst hx2
      have hy : y ≠ hn := fun e => h2 ⟨rfl, e⟩
      rw [record_game_entry_away r hn hf x af hp ap hne y, if_neg hy]
    · exact record_game_entry_other r hn hf an af hp ap x hx1 hx2 y

theorem updateTeam_addGame_map_name (r : Registry) (n o : String) (w : Bool) (s : Int) :
    (updateTeam r n (fun t => t.add_game o w s)).map Team.name = r.map Team.name :=
  updateTeam_map_name r n _ (fun _ => rfl)

theorem ensureTeam_map_name (r : Registry) (n : String) (fbs : Bool) :
    (ensureTeam r n fbs).map Team.name =
      if (findTeam r n).isSome then r.map Team.name else r.map Team.name ++ [n] := by
  unfold ensureTeam
  split
  · rfl
  · simp [newTeam]

theorem record_game_map_name (r : Registry) (hn : String) (hf : Bool)
    (an : String) (af : Bool) (hp ap : Int) :
    (record_game r hn hf an af hp ap).map Team.name
      = (ensureTeam (ensureTeam r hn hf) an af).map Team.name := by
  simp only [record_game]
  rw [updateTeam_addGame_map_name, updateTeam_addGame_map_name]

theorem ensureTeam_names_nodup (r : Registry) (n : String) (fbs : Bool)
    (h : (r.map Team.name).Nodup) : ((ensureTeam r n fbs).map Team.name).Nodup := by
  rw [ensureTeam_map_name]
  split
  · exact h
  · next hcond =>
    rw [List.nodup_append]
    refine ⟨h, List.nodup_singleton n, ?_⟩
    intro x hx hx2
    have hxn : x = n := by simpa using hx2
    subst hxn
    exact hcond (by rw [findTeam_isSome_iff]; exact hx)

theorem record_game_names_nodup (r : Registry) (hn : String) (hf : Bool)
    (an : String) (af : Bool) (hp ap : Int)
    (h : (r.map Team.name).Nodup) :
    ((record_game r hn hf an af hp ap).map Team.name).Nodup := by
  rw [record_game_map_name]
  exact ensureTeam_names_nodup _ _ _ (ensureTeam_names_nodup _ _ _ h)

theorem ensureTeam_names_sub (r : Registry) (n : String) (fbs : Bool) :
    ∀ x ∈ r.map Team.name, x ∈ (ensureTeam r n fbs).map Team.name := by
  intro x hx
  rw [ensureTeam_map_name]
  split
  · exact hx
  · exact List.mem_append_left _ hx

theorem ensureTeam_name_mem (r : Registry) (n : String) (fbs : Bool) :
    n ∈ (ensureTeam r n fbs).map Team.name := by
  rw [← findTeam_isSome_iff, ensureTeam_findTeam_self]
  rfl

theorem mem_updateTeam_iff (r : Registry) (n : String) (f : Team → Team) (t' : Team) :
    t' ∈ updateTeam r n f ↔ ∃ t ∈ r, t' = if t.name = n then f t else t := by
  unfold updateTeam
  rw [List.mem_map]
  constructor
  · rintro ⟨t, ht, he⟩
    exact ⟨t, ht, he.symm⟩
  · rintro ⟨t, ht, he⟩
    exact ⟨t, ht, he.symm⟩

theorem mem_ensureTeam (r : Registry) (n : String) (fbs : Bool) (t : Team)
    (h : t ∈ ensureTeam r n fbs) : t ∈ r ∨ t = newTeam n fbs := by
  unfold ensureTeam at h
  split at h
  · exact Or.inl h
  · rcases List.mem_append.mp h with h1 | h1
    · exact Or.inl h1
    · right
      simpa using h1

theorem setGame_keys_sub (gs : List (String × Int)) (k : String) (v : Int) :
    ∀ x ∈ (setGame gs k v).map Prod.fst, x ∈ gs.map Prod.fst ∨ x = k := by
  rcases setGame_keys gs k v with h | ⟨h, _⟩
  · rw [h]
    intro x hx
    exact Or.inl hx
  · rw [h]
    intro x hx
    rcases List.mem_append.mp hx with h1 | h1
    · exact Or.inl h1
    · right
      simpa using h1

theorem setGame_keys_nodup (gs : List (String × Int)) (k : String) (v : Int)
    (h : (gs.map Prod.fst).Nodup) : ((setGame gs k v).map Prod.fst).Nodup := by
  rcases setGame_keys gs k v with h2 | ⟨h2, hk⟩
  · rw [h2]
    exact h
  · rw [h2, List.nodup_append]
    refine ⟨h, List.nodup_singleton k, ?_⟩
    intro x hx hx2
    have hxk : x = k := by simpa using hx2
    subst hxk
    exact hk hx

theorem keys_addGame_ite_sub (t : Team) (c : Prop) [Decidable c] (o : String)
    (w : Bool) (s : Int) :
    ∀ x ∈ (if c then t.add_game o w s else t).games.map Prod.fst,
      x ∈ t.games.map Prod.fst ∨ x = o := by
  split
  · rw [add_game_games]
    exact setGame_keys_sub _ _ _
  · intro x hx
    exact Or.inl hx

theorem keys_addGame_ite_nodup (t : Team) (c : Prop) [Decidable c] (o : String)
    (w : Bool) (s : Int) (h : (t.games.map Prod.fst).Nodup) :
    ((if c then t.add_game o w s else t).games.map Prod.fst).Nodup := by
  split
  · rw [add_game_games]
    exact setGame_keys_nodup _ _ _ h
  · exact h

theorem closedReg_names (r : Registry) :
    closedReg r ↔ ∀ t ∈ r, ∀ p ∈ t.games, p.1 ∈ r.map Team.name := by
  unfold closedReg
  constructor
  · intro h t ht p hp
    have := h t ht p hp
    rwa [findTeam_isSome_iff] at this
  · intro h t ht p hp
    rw [findTeam_isSome_iff]
    exact h t ht p hp

theorem record_game_closed (r : Registry) (hn : String) (hf : Bool)
    (an : String) (af : Bool) (hp ap : Int) (hc : closedReg r) :
    closedReg (record_game r hn hf an af hp ap) := by
  rw [closedReg_names]
  intro t' ht' p hp'
  rw [record_game_map_name]
  have hhn : hn ∈ (ensureTeam (ensureTeam r hn hf) an af).map Team.name :=
    ensureTeam_names_sub _ _ _ hn (ensureTeam_name_mem r hn hf)
  have han : an ∈ (ensureTeam (ensureTeam r hn hf) an af).map Team.name :=
    ensureTeam_name_mem _ an af
  have hold : ∀ x ∈ r.map Team.name,
      x ∈ (ensureTeam (ensureTeam r hn hf) an af).map Team.name :=
    fun x hx => ensureTeam_names_sub _ _ _ x (ensureTeam_names_sub _ _ _ x hx)
  simp only [record_game] at ht'
  rcases (mem_updateTeam_iff _ _ _ _).mp ht' with ⟨t3, ht3, he3⟩
  rcases (mem_updateTeam_iff _ _ _ _).mp ht3 with ⟨t2, ht2, he2⟩
  have hk' : p.1 ∈ t'.games.map Prod.fst := List.mem_map_of_mem Prod.fst hp'
  rw [he3] at hk'
  rcases keys_addGame_ite_sub t3 _ hn _ _ p.1 hk' with hk3 | hk3
  · rw [he2] at hk3
    rcases keys_addGame_ite_sub t2 _ an _ _ p.1 hk3 with hk2 | hk2
    · rcases mem_ensureTeam _ _ _ _ ht2 with hm2 | hm2
      · rcases mem_ensureTeam _ _ _ _ hm2 with hm3 | hm3
        · rcases List.mem_map.mp hk2 with ⟨q, hq, hqe⟩
          have := (closedReg_names r).mp hc t2 hm3 q hq
          rw [hqe] at this
          exact hold _ this
        · rw [hm3] at hk2
          simp [newTeam] at hk2
      · rw [hm2] at hk2
        simp [newTeam] at hk2
    · rw [hk2]
      exact han
  · rw [hk3]
    exact hhn

theorem record_game_keysNd (r : Registry) (hn : String) (hf : Bool)
    (an : String) (af : Bool) (hp ap : Int)
    (hk : ∀ t ∈ r, (t.games.map Prod.fst).Nodup) :
    ∀ t' ∈ record_game r hn hf an af hp ap, (t'.games.map Prod.fst).Nodup := by
  intro t' ht'
  simp only [record_game] at ht'
  rcases (mem_updateTeam_iff _ _ _ _).mp ht' with ⟨t3, ht3, he3⟩
  rcases (mem_updateTeam_iff _ _ _ _).mp ht3 with ⟨t2, ht2, he2⟩
  have h2 : (t2.games.map Prod.fst).Nodup := by
    rcases mem_ensureTeam _ _ _ _ ht2 with hm2 | hm2
    · rcases mem_ensureTeam _ _ _ _ hm2 with hm3 | hm3
      · exact hk t2 hm3
      · rw [hm3]
        simp [newTeam]
    · rw [hm2]
      simp [newTeam]
  rw [he3]
  apply keys_addGame_ite_nodup
  rw [he2]
  exact keys_addGame_ite_nodup _ _ _ _ _ h2

theorem record_game_mirror (r : Registry) (hn : String) (hf : Bool)
    (an : String) (af : Bool) (hp ap : Int) (hne : hn ≠ an)
    (hm : ∀ a b, entry r b a = (entry r a b).map (fun m => -m)) :
    ∀ a b, entry (record_game r hn hf an af hp ap) b a
      = (entry (record_game r hn hf an af hp ap) a b).map (fun m => -m) := by
  intro a b
  by_cases ha1 : a = hn
  · rw [ha1]
    by_cases hb2 : b = an
    · rw [hb2]
      rw [record_game_entry_away r hn hf an af hp ap hne hn, if_pos rfl]
      rw [record_game_entry_home r hn hf an af hp ap hne an, if_pos rfl]
      simp [neg_sub]
    · by_cases hb1 : b = hn
      · rw [hb1]
        rw [record_game_entry_home r hn hf an af hp ap hne hn, if_neg hne]
        exact hm hn hn
      · rw [record_game_entry_home r hn hf an af hp ap hne b, if_neg hb2]
        rw [record_game_entry_preserve r hn hf an af hp ap hne b hn
          (fun h => hb1 h.1) (fun h => hb2 h.1)]
        exact hm hn b
  · by_cases ha2 : a = an
    · rw [ha2]
      by_cases hb1 : b = hn
      · rw [hb1]
        rw [record_game_entry_home r hn hf an af hp ap hne an, if_pos rfl]
        rw [record_game_entry_away r hn hf an af hp ap hne hn, if_pos rfl]
        simp [neg_sub]
      · by_cases hb2 : b = an
        · rw [hb2]
          rw [record_game_entry_away r hn hf an af hp ap hne an, if_neg (Ne.symm hne)]
          exact hm an an
        · rw [record_game_entry_away r hn hf an af hp ap hne b, if_neg hb1]
          rw [record_game_entry_preserve r hn hf an af hp ap hne b an
            (fun h => hb1 h.1) (fun h => hb2 h.1)]
          exact hm an b
    · by_cases hb1 : b = hn
      · rw [hb1]
        rw [record_game_entry_home r hn hf an af hp ap hne a, if_neg ha2]
        rw [record_game_entry_preserve r hn hf an af hp ap hne a hn
          (fun h => ha1 h.1) (fun h => ha2 h.1)]
        exact hm a hn
      · by_cases hb2 : b = an
        · rw [hb2]
          rw [record_game_entry_away r hn hf an af hp ap hne a, if_neg ha1]
          rw [record_game_entry_preserve r hn hf an af hp ap hne a an
            (fun h => ha1 h.1) (fun h => ha2 h.1)]
          exact hm a an
        · rw [record_game_entry_other r hn hf an af hp ap b hb1 hb2 a]
          rw [record_game_entry_preserve r hn hf an af hp ap hne a b
            (fun h => ha1 h.1) (fun h => ha2 h.1)]
          exact hm a b

theorem recordInv_nil : recordInv [] := by
  refine ⟨List.nodup_nil, ?_, ?_, ?_⟩
  · intro t ht
    cases ht
  · intro a b
    rfl
  · intro t ht
    cases ht

theorem recordInv_record_game (r : Registry) (hn : String) (hf : Bool)
    (an : String) (af : Bool) (hp ap : Int) (hne : hn ≠ an)
    (h : recordInv r) : recordInv (record_game r hn hf an af hp ap) := by
  obtain ⟨hnd, hc, hm, hk⟩ := h
  exact ⟨record_game_names_nodup r hn hf an af hp ap hnd,
    record_game_closed r hn hf an af hp ap hc,
    record_game_mirror r hn hf an af hp ap hne hm,
    record_game_keysNd r hn hf an af hp ap hk⟩

theorem recordInv_foldl (l : List GameInput) :
    ∀ r : Registry, recordInv r → (∀ g ∈ l, g.home_name ≠ g.away_name) →
      recordInv (l.foldl applyGame r) := by
  induction l with
  | nil => intro r h _; exact h
  | cons g l ih =>
    intro r h hd
    rw [List.foldl_cons]
    exact ih _ (recordInv_record_game r _ _ _ _ _ _
      (hd g (List.mem_cons_self g l)) h)
      (fun g' hg' => hd g' (List.mem_cons_of_mem g hg'))

theorem recordInv_builtFrom (gs : List GameInput)
    (hd : ∀ g ∈ gs, g.home_name ≠ g.away_name) : recordInv (builtFrom gs) :=
  recordInv_foldl gs [] recordInv_nil hd

/-! Presence of the named teams and the last-game shape of each entry. -/

theorem record_game_home_present (r : Registry) (hn : String) (hf : Bool)
    (an : String) (af : Bool) (hp ap : Int) :
    (findTeam (record_game r hn hf an af hp ap) hn).isSome := by
  rw [findTeam_isSome_iff, record_game_map_name]
  exact ensureTeam_names_sub _ _ _ hn (ensureTeam_name_mem r hn hf)

theorem record_game_away_present (r : Registry) (hn : String) (hf : Bool)
    (an : String) (af : Bool) (hp ap : Int) :
    (findTeam (record_game r hn hf an af hp ap) an).isSome := by
  rw [findTeam_isSome_iff, record_game_map_name]
  exact ensureTeam_name_mem _ an af

theorem record_game_present_mono (r : Registry) (hn : String) (hf : Bool)
    (an : String) (af : Bool) (hp ap : Int) (m : String)
    (h : (findTeam r m).isSome) :
    (findTeam (record_game r hn hf an af hp ap) m).isSome := by
  rw [findTeam_isSome_iff] at h
  rw [findTeam_isSome_iff, record_game_map_name]
  exact ensureTeam_names_sub _ _ _ m (ensureTeam_names_sub _ _ _ m h)

theorem foldl_present_mono (l : List GameInput) :
    ∀ (r : Registry) (m : String), (findTeam r m).isSome →
      (findTeam (l.foldl applyGame r) m).isSome := by
  induction l with
  | nil => intro r m h; exact h
  | cons g l ih =>
    intro r m h
    rw [List.foldl_cons]
    exact ih _ m (record_game_present_mono r _ _ _ _ _ _ m h)

theorem builtFrom_presence (gs : List GameInput) :
    ∀ g ∈ gs, (findTeam (builtFrom gs) g.home_name).isSome ∧
      (findTeam (builtFrom gs) g.away_name).isSome := by
  have main : ∀ (l : List GameInput) (r : Registry), ∀ g ∈ l,
      (findTeam (l.foldl applyGame r) g.home_name).isSome ∧
      (findTeam (l.foldl applyGame r) g.away_name).isSome := by
    intro l
    induction l with
    | nil => intro r g hg; cases hg
    | cons g0 l ih =>
      intro r g hg
      rw [List.foldl_cons]
      rcases List.mem_cons.mp hg with h | h
      · subst h
        exact ⟨foldl_present_mono l _ _ (record_game_home_present r _ _ _ _ _ _),
          foldl_present_mono l _ _ (record_game_away_present r _ _ _ _ _ _)⟩
      · exact ih _ g h
  exact main gs []

theorem lastPairing_append (gs : List GameInput) (g : GameInput) (a b : String) :
    lastPairing (gs ++ [g]) a b =
      if isPairing a b g then some g else lastPairing gs a b := by
  unfold lastPairing
  rw [List.filter_append]
  by_cases h : isPairing a b g
  · rw [if_pos h]
    have : List.filter (isPairing a b) [g] = [g] := by simp [h]
    rw [this, List.getLast?_concat]
  · rw [if_neg h]
    have : List.filter (isPairing a b) [g] = [] := by simp [h]
    rw [this, List.append_nil]

theorem lastPairing_isPairing (gs : List GameInput) (a b : String) (g : GameInput)
    (h : lastPairing gs a b = some g) : isPairing a b g = true := by
  unfold lastPairing at h
  have hmem : g ∈ gs.filter (isPairing a b) :=
    List.mem_of_mem_getLast? (by rw [h]; rfl)
  exact (List.mem_filter.mp hmem).2

theorem builtFrom_append (gs : List GameInput) (g : GameInput) :
    builtFrom (gs ++ [g]) = applyGame (builtFrom gs) g := by
  unfold builtFrom
  rw [List.foldl_append]
  rfl

theorem builtFrom_lastPairing (gs : List GameInput)
    (hd : ∀ g ∈ gs, g.home_name ≠ g.away_name) :
    ∀ (a b : String) (g : GameInput), lastPairing gs a b = some g →
      entry (builtFrom gs) g.home_name g.away_name
        = some (g.home_points - g.away_points) := by
  induction gs using List.reverseRecOn with
  | nil =>
    intro a b g h
    simp [lastPairing] at h
  | append_singleton gs g0 ih =>
    intro a b g h
    have hd' : ∀ g' ∈ gs, g'.home_name ≠ g'.away_name :=
      fun g' hg' => hd g' (List.mem_append_left _ hg')
    have hd0 : g0.home_name ≠ g0.away_name := hd g0 (by simp)
    rw [lastPairing_append] at h
    rw [builtFrom_append]
    by_cases hp0 : isPairing a b g0
    · rw [if_pos hp0] at h
      have hg : g = g0 := by
        injection h with h2
        exact h2.symm
      subst hg
      unfold applyGame
      rw [record_game_entry_home _ _ _ _ _ _ _ hd0, if_pos rfl]
    · rw [if_neg hp0] at h
      have hpg := lastPairing_isPairing gs a b g h
      have hpg' : (g.home_name = a ∧ g.away_name = b)
          ∨ (g.home_name = b ∧ g.away_name = a) := by
        simpa [isPairing] using hpg
      unfold applyGame
      rw [record_game_entry_preserve (builtFrom gs) g0.home_name g0.home_fbs
        g0.away_name g0.away_fbs g0.home_points g0.away_points hd0
        g.home_name g.away_name ?h1 ?h2]
      · exact ih hd' a b g h
      case h1 =>
        rintro ⟨e1, e2⟩
        apply hp0
        rcases hpg' with ⟨f1, f2⟩ | ⟨f1, f2⟩
        · simp [isPairing, ← e1, ← e2, f1, f2]
        · simp [isPairing, ← e1, ← e2, f1, f2]
      case h2 =>
        rintro ⟨e1, e2⟩
        apply hp0
        rcases hpg' with ⟨f1, f2⟩ | ⟨f1, f2⟩
        · simp [isPairing, ← e1, ← e2, f1, f2]
        · simp [isPairing, ← e1, ← e2, f1, f2]

/-- C9: in a registry built only by record_game calls on distinct pairs,
game maps are mirrored with negated margins, the home side of the latest
game of each pairing holds home_points - away_points, and both named
teams of every game are registered. -/
theorem claim_c9_mirrored_maps (gs : List GameInput)
    (hd : ∀ g ∈ gs, g.home_name ≠ g.away_name) :
    (∀ g ∈ gs, (findTeam (builtFrom gs) g.home_name).isSome ∧
      (findTeam (builtFrom gs) g.away_name).isSome) ∧
    (∀ t1 ∈ builtFrom gs, ∀ t2 ∈ builtFrom gs,
      lookupGame t2.games t1.name = (lookupGame t1.games t2.name).map (fun m => -m)) ∧
    (∀ (a b : String) (g : GameInput), lastPairing gs a b = some g →
      entry (builtFrom gs) g.home_name g.away_name
          = some (g.home_points - g.away_points) ∧
      entry (builtFrom gs) g.away_name g.home_name
          = some (g.away_points - g.home_points)) := by
  obtain ⟨hnd, hc, hm, hk⟩ := recordInv_builtFrom gs hd
  refine ⟨builtFrom_presence gs, ?_, ?_⟩
  · intro t1 h1 t2 h2
    have e1 : findTeam (builtFrom gs) t1.name = some t1 :=
      findTeam_of_mem _ _ hnd h1
    have e2 : findTeam (builtFrom gs) t2.name = some t2 :=
      findTeam_of_mem _ _ hnd h2
    have := hm t1.name t2.name
    unfold entry at this
    rw [e1, e2] at this
    exact this
  · intro a b g h
    have h1 := builtFrom_lastPairing gs hd a b g h
    refine ⟨h1, ?_⟩
    have h2 := hm g.home_name g.away_name
    rw [h1] at h2
    rw [h2]
    simp [neg_sub]

/-- Witness for C9 on the demo schedule: team A is registered, and the
B-C pairing's entries hold 20-17 and its negation. -/
theorem claim_c9_mirrored_maps_witness :
    (findTeam (builtFrom demoGames) "A").isSome ∧
    entry (builtFrom demoGames) "B" "C" = some (20 - 17) ∧
    entry (builtFrom demoGames) "C" "B" = some (17 - 20) := by
  have h := claim_c9_mirrored_maps demoGames (by decide)
  have hpresent := h.1
    { home_name := "A", home_fbs := true, away_name := "B", away_fbs := true,
      home_points := 30, away_points := 10 } (by decide)
  have hlast := h.2.2 "B" "C"
    { home_name := "B", home_fbs := true, away_name := "C", away_fbs := true,
      home_points := 20, away_points := 17 } (by decide)
  exact ⟨hpresent.1, hlast.1, hlast.2⟩

theorem scoreTerm_eq (r : Registry) (t : Team) (p : String × Int) (opp : Team)
    (hopp : findTeam r p.1 = some opp) :
    scoreTerm r t p =
      if 0 < p.2 then
        (if (lookupGame opp.games t.name).any (fun m => decide (m < 0))
          then (9 : ℚ) / 10 else 11 / 10)
          * ((opp.wins : ℚ) + opp.sos) * Team.calculate_bonus p.2
      else
        -((if (lookupGame opp.games t.name).any (fun m => decide (m < 0))
          then (11 : ℚ) / 10 else 9 / 10)
          * ((opp.losses : ℚ) + opp.sos) * Team.calculate_penalty p.2) := by
  unfold scoreTerm
  simp only [hopp]
  cases lookupGame opp.games t.name <;> rfl

theorem scoreTermFixed_eq (r : Registry) (t : Team) (p : String × Int) (opp : Team)
    (hopp : findTeam r p.1 = some opp) :
    scoreTermFixed r t p =
      if 0 < p.2 then
        ((9 : ℚ) / 10) * ((opp.wins : ℚ) + opp.sos) * Team.calculate_bonus p.2
      else
        -(((9 : ℚ) / 10) * ((opp.losses : ℚ) + opp.sos) * Team.calculate_penalty p.2) := by
  unfold scoreTermFixed
  simp only [hopp]

theorem scoreTermSpec_eq (r : Registry) (t : Team) (p : String × Int) (opp : Team)
    (hopp : findTeam r p.1 = some opp) :
    scoreTermSpec r t p =
      if 0 < p.2 then
        (if (lookupGame opp.games t.name).any (fun m => decide (m < 0))
          then (0.9 : ℚ) else (1.1 : ℚ))
          * ((opp.wins : ℚ) + opp.sos) * (1 + (0.2 : ℚ) * (min ((p.2 : ℚ)) 7 / 21) ^ 2)
      else
        -((if (lookupGame opp.games t.name).any (fun m => decide (m < 0))
          then (1.1 : ℚ) else (0.9 : ℚ))
          * ((opp.losses : ℚ) + opp.sos) * (1 + (1.0 : ℚ) * (min |(p.2 : ℚ)| 28 / 28) ^ 2)) := by
  unfold scoreTermSpec
  simp only [hopp]

/-- C10: on a registry built only by record_game calls, the home/away
probe always resolves the weight to 0.9 in both branches, so rank_score
coincides with the variant whose weight is the constant 0.9. -/
theorem claim_c10_weight_vacuous (gs : List GameInput)
    (hd : ∀ g ∈ gs, g.home_name ≠ g.away_name) :
    ∀ t ∈ builtFrom gs,
      Team.rank_score (builtFrom gs) t = rank_score_fixed (builtFrom gs) t := by
  obtain ⟨hnd, hc, hm, hk⟩ := recordInv_builtFrom gs hd
  intro t ht
  unfold Team.rank_score rank_score_fixed
  have hcl : ∀ p ∈ t.games, (findTeam (builtFrom gs) p.1).isSome := hc t ht
  rw [if_pos hcl, if_pos hcl]
  unfold rank_score_val
  by_cases hlen : 0 < t.games.length
  · rw [if_pos hlen, if_pos hlen]
    have hmapeq : t.games.map (scoreTerm (builtFrom gs) t)
        = t.games.map (scoreTermFixed (builtFrom gs) t) := by
      apply List.map_congr_left
      intro p hp
      rcases Option.isSome_iff_exists.mp (hcl p hp) with ⟨opp, hopp⟩
      have et : entry (builtFrom gs) t.name p.1 = some p.2 := by
        unfold entry
        rw [findTeam_of_mem _ _ hnd ht]
        exact lookupGame_of_mem _ _ (hk t ht) hp
      have eo := hm t.name p.1
      rw [et] at eo
      have eo' : lookupGame opp.games t.name = some (-p.2) := by
        unfold entry at eo
        rw [hopp] at eo
        simpa using eo
      rw [scoreTerm_eq _ _ _ opp hopp, scoreTermFixed_eq _ _ _ opp hopp, eo']
      by_cases hsp : 0 < p.2
      · have hh : -p.2 < 0 := by omega
        simp [hsp, hh]
      · have hh : ¬(-p.2 < 0) := by omega
        simp [hsp, hh]
    rw [hmapeq]
  · rw [if_neg hlen, if_neg hlen]

/-- Witness for C10 on the demo schedule at team A. -/
theorem claim_c10_weight_vacuous_witness :
    Team.rank_score (builtFrom demoGames)
        { name := "A", is_fbs := true, games := [("B", 20)], wins := 1,
          losses := 0, sos := 0 }
      = rank_score_fixed (builtFrom demoGames)
        { name := "A", is_fbs := true, games := [("B", 20)], wins := 1,
          losses := 0, sos := 0 } :=
  claim_c10_weight_vacuous demoGames (by decide) _ (by decide)

/-- C5: rank_score computes exactly the spec formula: per game, the
home/away probe picks 0.9 or 1.1, a win adds
weight x (opponent wins + sos) x bonus, a loss or tie subtracts
weight x (opponent losses + sos) x penalty, and the sum is scaled by
12 / numberOfGames, with 0 for a team with no games. -/
theorem claim_c5_rank_score_formula (r : Registry) (t : Team)
    (hcl : ∀ p ∈ t.games, (findTeam r p.1).isSome) :
    Team.rank_score r t = some (rank_score_spec r t) := by
  unfold Team.rank_score
  rw [if_pos hcl]
  congr 1
  unfold rank_score_val rank_score_spec
  by_cases hlen : t.games.length = 0
  · rw [if_pos hlen]
    rw [if_neg (by omega)]
  · rw [if_neg hlen, if_pos (by omega)]
    have hmapeq : t.games.map (scoreTerm r t) = t.games.map (scoreTermSpec r t) := by
      apply List.map_congr_left
      intro p hp
      rcases Option.isSome_iff_exists.mp (hcl p hp) with ⟨opp, hopp⟩
      have hbon : Team.calculate_bonus p.2
          = 1 + (0.2 : ℚ) * (min ((p.2 : ℚ)) 7 / 21) ^ 2 := by
        simp only [Team.calculate_bonus]
        norm_num
      have hpen : Team.calculate_penalty p.2
          = 1 + (1.0 : ℚ) * (min |(p.2 : ℚ)| 28 / 28) ^ 2 := by
        simp only [Team.calculate_penalty]
        rw [Int.cast_natAbs]
        norm_num
      have hw1 : ((9 : ℚ) / 10) = (0.9 : ℚ) := by norm_num
      have hw2 : ((11 : ℚ) / 10) = (1.1 : ℚ) := by norm_num
      rw [scoreTerm_eq _ _ _ opp hopp, scoreTermSpec_eq _ _ _ opp hopp,
        hbon, hpen, hw1, hw2]
    rw [hmapeq]

/-- Witness for C5 at concrete team A of the demo registry. -/
theorem claim_c5_rank_score_formula_witness :
    Team.rank_score (builtFrom demoGames)
        { name := "A", is_fbs := true, games := [("B", 20)], wins := 1,
          losses := 0, sos := 0 }
      = some (rank_score_spec (builtFrom demoGames)
        { name := "A", is_fbs := true, games := [("B", 20)], wins := 1,
          losses := 0, sos := 0 }) :=
  claim_c5_rank_score_formula (builtFrom demoGames) _ (by decide)

/-! Characterization of one Gauss-Seidel pass of the recursive solver. -/

theorem recursive_sos_update_name (r : Registry) (t : Team) :
    (t.recursive_sos_update r).name = t.name :=
  name_of_skel (recursive_sos_update_skel r t)

theorem findTeam_sosStep_ne (acc : Registry) (m n : String) (hne : n ≠ m) :
    findTeam (sosStep acc m) n = findTeam acc n :=
  findTeam_updateTeam_ne acc m n _ (fun t => recursive_sos_update_name acc t) hne

theorem findTeam_sosStep_self (acc : Registry) (n : String) :
    findTeam (sosStep acc n) n
      = (findTeam acc n).map (fun t => t.recursive_sos_update acc) :=
  findTeam_updateTeam_self acc n _ (fun t => recursive_sos_update_name acc t)

theorem findTeam_foldl_sosStep_notMem (l : List String) :
    ∀ (acc : Registry) (n : String), n ∉ l →
      findTeam (l.foldl sosStep acc) n = findTeam acc n := by
  induction l with
  | nil => intro acc n _; rfl
  | cons m l ih =>
    intro acc n hn
    rw [List.foldl_cons]
    have h1 : n ≠ m := fun e => hn (e ▸ List.mem_cons_self m l)
    have h2 : n ∉ l := fun h => hn (List.mem_cons_of_mem m h)
    rw [ih _ n h2, findTeam_sosStep_ne acc m n h1]

theorem oppSosSum_cons (r : Registry) (p : String × Int) (gs : List (String × Int)) :
    oppSosSum r (p :: gs)
      = ((findTeam r p.1).map Team.sos).getD 0 + oppSosSum r gs := by
  unfold oppSosSum
  rw [List.map_cons, List.sum_cons]

theorem sosTotals_eq_of_closed (r : Registry) (gs : List (String × Int))
    (h : ∀ p ∈ gs, (findTeam r p.1).isSome) :
    sosTotals r gs = (oppSosSum r gs, gs.length) := by
  have main : ∀ (gs : List (String × Int)), (∀ p ∈ gs, (findTeam r p.1).isSome) →
      ∀ a : ℚ × Nat,
        gs.foldl
          (fun acc p =>
            match findTeam r p.1 with
            | some o => (acc.1 + o.sos, acc.2 + 1)
            | none => acc) a
        = (a.1 + oppSosSum r gs, a.2 + gs.length) := by
    intro gs
    induction gs with
    | nil =>
      intro _ a
      simp [oppSosSum]
    | cons p gs ih =>
      intro hcl a
      rw [List.foldl_cons]
      rcases Option.isSome_iff_exists.mp (hcl p (List.mem_cons_self p gs)) with ⟨o, ho⟩
      have step :
          (match findTeam r p.1 with
            | some o => (a.1 + o.sos, a.2 + 1)
            | none => a) = (a.1 + o.sos, a.2 + 1) := by
        rw [ho]
      rw [step, ih (fun q hq => hcl q (List.mem_cons_of_mem p hq))]
      rw [oppSosSum_cons, ho]
      simp [List.length_cons]
      constructor
      · ring
      · omega
  have := main gs h (0, 0)
  unfold sosTotals
  rw [this]
  simp

/-- C4: the recursive solver is exactly 1000 unconditional in-place
passes feeding get_rankings, and within a pass the team at position i is
replaced by the mean of its recorded opponents' sos read from the
registry state in which the first i teams were already updated; a team
with no games gets 0. -/
theorem claim_c4_thousand_gauss_seidel_passes :
    (∀ (k : Nat) (r : Registry),
      calculate_recursive_sos (k + 1) r = sosPass (calculate_recursive_sos k r)) ∧
    (∀ r : Registry, calculate_recursive_sos 1000 r = sosPass^[1000] r) ∧
    (∀ r : Registry, Team.get_rankings r = rankTable (sosPass^[1000] (phaseA r))) ∧
    (∀ r : Registry, (r.map Team.name).Nodup → closedReg r →
      ∀ i, ∀ hi : i < r.length,
        findTeam (sosPass r) (r.get ⟨i, hi⟩).name =
          some (gaussSeidelTeam r i (r.get ⟨i, hi⟩))) := by
  refine ⟨?_, fun r => rfl, fun r => rfl, ?_⟩
  · intro k r
    unfold calculate_recursive_sos
    rw [Function.iterate_succ_apply']
  · intro r hnd hc i hi
    have hleni : i < (r.map Team.name).length := by
      rw [List.length_map]; exact hi
    have hname : (r.map Team.name).get ⟨i, hleni⟩ = (r.get ⟨i, hi⟩).name := by
      simp
    have hdrop : (r.map Team.name).drop i
        = (r.get ⟨i, hi⟩).name :: (r.map Team.name).drop (i + 1) := by
      rw [← hname]
      exact List.drop_eq_getElem_cons hleni
    have hsplitnames : r.map Team.name
        = (r.map Team.name).take i
          ++ ((r.get ⟨i, hi⟩).name :: (r.map Team.name).drop (i + 1)) := by
      rw [← hdrop, List.take_append_drop]
    have hdecomp : sosPass r
        = ((r.map Team.name).drop (i + 1)).foldl sosStep
            (sosStep (sosPassAt r i) (r.get ⟨i, hi⟩).name) := by
      unfold sosPass sosPassAt
      conv_lhs => rw [hsplitnames]
      rw [List.foldl_append, List.foldl_cons]
    have hnotake : (r.get ⟨i, hi⟩).name ∉ (r.map Team.name).take i := by
      intro hmem
      have hnd2 : ((r.map Team.name).take i
          ++ ((r.get ⟨i, hi⟩).name :: (r.map Team.name).drop (i + 1))).Nodup := by
        rw [← hsplitnames]; exact hnd
      rcases List.nodup_append.mp hnd2 with ⟨_, _, hdisj⟩
      exact hdisj hmem (List.mem_cons_self _ _)
    have hnodrop : (r.get ⟨i, hi⟩).name ∉ (r.map Team.name).drop (i + 1) := by
      intro hmem
      have hnd2 : ((r.get ⟨i, hi⟩).name :: (r.map Team.name).drop (i + 1)).Nodup := by
        have := hnd.sublist (List.IsSuffix.sublist ⟨(r.map Team.name).take i, List.take_append_drop i _⟩)
        rw [hdrop] at this
        exact this
      exact (List.nodup_cons.mp hnd2).1 hmem
    have hfindAt : findTeam (sosPassAt r i) (r.get ⟨i, hi⟩).name
        = some (r.get ⟨i, hi⟩) := by
      unfold sosPassAt
      rw [findTeam_foldl_sosStep_notMem _ _ _ hnotake]
      exact findTeam_of_mem r _ hnd (List.get_mem r i hi)
    rw [hdecomp, findTeam_foldl_sosStep_notMem _ _ _ hnodrop,
      findTeam_sosStep_self, hfindAt, Option.map_some']
    congr 1
    unfold Team.recursive_sos_update gaussSeidelTeam
    by_cases hb : (r.get ⟨i, hi⟩).is_fbs
    · rw [if_pos hb, if_pos hb]
      have hclAt : ∀ p ∈ (r.get ⟨i, hi⟩).games,
          (findTeam (sosPassAt r i) p.1).isSome := by
        intro p hp
        have h1 := hc (r.get ⟨i, hi⟩) (List.get_mem r i hi) p hp
        rw [findTeam_isSome_iff] at h1 ⊢
        rw [map_name_of_map_skel (sosPassAt_map_skel r i)]
        exact h1
      rw [sosTotals_eq_of_closed _ _ hclAt]
      dsimp only
      by_cases hg : (r.get ⟨i, hi⟩).games = []
      · rw [List.get_eq_getElem] at hg
        simp [hg]
      · have hpos : 0 < (r.get ⟨i, hi⟩).games.length := List.length_pos.mpr hg
        rw [if_pos hpos, if_neg hg]
    · rw [if_neg hb, if_neg hb]

/-- Witness for C4 on the demo registry at position 0 and one pass. -/
theorem claim_c4_thousand_gauss_seidel_passes_witness :
    calculate_recursive_sos 1 (builtFrom demoGames)
        = sosPass (calculate_recursive_sos 0 (builtFrom demoGames)) ∧
    findTeam (sosPass (builtFrom demoGames))
        ((builtFrom demoGames).get ⟨0, by decide⟩).name =
      some (gaussSeidelTeam (builtFrom demoGames) 0
        ((builtFrom demoGames).get ⟨0, by decide⟩)) := by
  have h := claim_c4_thousand_gauss_seidel_passes
  exact ⟨h.1 0 (builtFrom demoGames),
    h.2.2.2 (builtFrom demoGames) (by decide) (by decide) 0 (by decide)⟩

/-! The rating order is a total order. -/

theorem lexStep_total_of {α β : Type} [LinearOrder α] (q : β → β → Prop)
    (hq : ∀ x y, q x y ∨ q y x) :
    ∀ a b : α × β, lexStep q a b ∨ lexStep q b a := by
  intro a b
  rcases lt_trichotomy a.1 b.1 with h | h | h
  · exact Or.inl (Or.inl h)
  · rcases hq a.2 b.2 with h2 | h2
    · exact Or.inl (Or.inr ⟨h, h2⟩)
    · exact Or.inr (Or.inr ⟨h.symm, h2⟩)
  · exact Or.inr (Or.inl h)

theorem lexStep_trans_of {α β : Type} [LinearOrder α] (q : β → β → Prop)
    (hq : ∀ x y z, q x y → q y z → q x z) :
    ∀ a b c : α × β, lexStep q a b → lexStep q b c → lexStep q a c := by
  rintro a b c (h1 | ⟨e1, h1⟩) (h2 | ⟨e2, h2⟩)
  · exact Or.inl (lt_trans h1 h2)
  · exact Or.inl (lt_of_lt_of_eq h1 e2)
  · exact Or.inl (lt_of_eq_of_lt e1 h2)
  · exact Or.inr ⟨e1.trans e2, hq _ _ _ h1 h2⟩

theorem lexStep_antisymm_of {α β : Type} [LinearOrder α] (q : β → β → Prop)
    (hq : ∀ x y, q x y → q y x → x = y) :
    ∀ a b : α × β, lexStep q a b → lexStep q b a → a = b := by
  rintro a b (h1 | ⟨e1, h1⟩) (h2 | ⟨e2, h2⟩)
  · exact absurd h2 (lt_asymm h1)
  · exact absurd (lt_of_lt_of_eq h1 e2) (lt_irrefl _)
  · exact absurd (lt_of_lt_of_eq h2 e1) (lt_irrefl _)
  · exact Prod.ext e1 (hq _ _ h1 h2)

theorem strLe_total : ∀ x y : String, strLe x y ∨ strLe y x :=
  fun x y => le_total x y

theorem strLe_trans : ∀ x y z : String, strLe x y → strLe y z → strLe x z :=
  fun _ _ _ h1 h2 => le_trans h1 h2

theorem strLe_antisymm : ∀ x y : String, strLe x y → strLe y x → x = y :=
  fun _ _ h1 h2 => le_antisymm h1 h2

theorem lossNameLe_total : ∀ a b : Nat × String, lossNameLe a b ∨ lossNameLe b a :=
  fun a b => lexStep_total_of strLe strLe_total a b

theorem lossNameLe_trans :
    ∀ a b c : Nat × String, lossNameLe a b → lossNameLe b c → lossNameLe a c :=
  fun a b c => lexStep_trans_of strLe strLe_trans a b c

theorem lossNameLe_antisymm :
    ∀ a b : Nat × String, lossNameLe a b → lossNameLe b a → a = b :=
  fun a b => lexStep_antisymm_of strLe strLe_antisymm a b

theorem winLossNameLe_total :
    ∀ a b : Int × Nat × String, winLossNameLe a b ∨ winLossNameLe b a :=
  fun a b => lexStep_total_of lossNameLe lossNameLe_total a b

theorem winLossNameLe_trans :
    ∀ a b c : Int × Nat × String,
      winLossNameLe a b → winLossNameLe b c → winLossNameLe a c :=
  fun a b c => lexStep_trans_of lossNameLe lossNameLe_trans a b c

theorem winLossNameLe_antisymm :
    ∀ a b : Int × Nat × String, winLossNameLe a b → winLossNameLe b a → a = b :=
  fun a b => lexStep_antisymm_of lossNameLe lossNameLe_antisymm a b

theorem ratingLe_total : ∀ a b : Rating, ratingLe a b ∨ ratingLe b a :=
  fun a b => lexStep_total_of winLossNameLe winLossNameLe_total a b

theorem ratingLe_trans : ∀ a b c : Rating, ratingLe a b → ratingLe b c → ratingLe a c :=
  fun a b c => lexStep_trans_of winLossNameLe winLossNameLe_trans a b c

theorem ratingLe_antisymm : ∀ a b : Rating, ratingLe a b → ratingLe b a → a = b :=
  fun a b => lexStep_antisymm_of winLossNameLe winLossNameLe_antisymm a b

/-! Characterization of the ranking table. -/

theorem buildRatings_eq (r : Registry) (ts : List Team)
    (h : ∀ t ∈ ts, ∀ p ∈ t.games, (findTeam r p.1).isSome) :
    buildRatings r ts = some (ts.map (ratingOf r)) := by
  induction ts with
  | nil => rfl
  | cons t ts ih =>
    have hrs : Team.rank_score r t = some (rank_score_val r t) := by
      unfold Team.rank_score
      rw [if_pos (h t (List.mem_cons_self t ts))]
    simp only [buildRatings]
    rw [hrs, ih (fun u hu => h u (List.mem_cons_of_mem t hu))]
    rw [List.map_cons]
    rfl

theorem rankTable_spec (r2 : Registry) (hc2 : closedReg r2) :
    ∃ l, rankTable r2 = some l ∧
      l.length = (r2.filter (fun t => t.is_fbs)).length ∧
      l.map Ranking.rank = (List.range l.length).map (fun i => i + 1) ∧
      List.Perm (l.map Ranking.team) ((r2.filter (fun t => t.is_fbs)).map Team.name) ∧
      l.Pairwise (fun a b => ratingLe (ratingOfRanking a) (ratingOfRanking b)) := by
  have hcl : ∀ t ∈ r2.filter (fun t => t.is_fbs), ∀ p ∈ t.games,
      (findTeam r2 p.1).isSome := by
    intro t ht
    exact hc2 t (List.mem_of_mem_filter ht)
  have hbr := buildRatings_eq r2 (r2.filter (fun t => t.is_fbs)) hcl
  refine ⟨((((r2.filter (fun t => t.is_fbs)).map (ratingOf r2)).mergeSort
      (fun a b => decide (ratingLe a b))).enum.map (fun p =>
      { rank := p.1 + 1, team := p.2.2.2.2, wins := -p.2.2.1,
        losses := p.2.2.2.1, score := -p.2.1 })), ?_, ?_, ?_, ?_, ?_⟩
  · unfold rankTable
    rw [hbr]
  · rw [List.length_map, List.enum_length, List.length_mergeSort, List.length_map]
  · rw [List.map_map]
    have hcomp : (Ranking.rank ∘ fun p : Nat × Rating =>
        Ranking.mk (p.1 + 1) p.2.2.2.2 (-p.2.2.1) p.2.2.2.1 (-p.2.1))
        = (fun i => i + 1) ∘ Prod.fst := rfl
    rw [hcomp, ← List.map_map, List.enum_map_fst]
    rw [List.length_map, List.enum_length]
  · have h1 : ((((r2.filter (fun t => t.is_fbs)).map (ratingOf r2)).mergeSort
        (fun a b => decide (ratingLe a b))).enum.map (fun p =>
        Ranking.mk (p.1 + 1) p.2.2.2.2 (-p.2.2.1) p.2.2.2.1 (-p.2.1))).map Ranking.team
        = (((r2.filter (fun t => t.is_fbs)).map (ratingOf r2)).mergeSort
        (fun a b => decide (ratingLe a b))).map (fun q : Rating => q.2.2.2) := by
      rw [List.map_map]
      have hcomp : (Ranking.team ∘ fun p : Nat × Rating =>
          Ranking.mk (p.1 + 1) p.2.2.2.2 (-p.2.2.1) p.2.2.2.1 (-p.2.1))
          = (fun q : Rating => q.2.2.2) ∘ Prod.snd := rfl
      rw [hcomp, ← List.map_map, List.enum_map_snd]
    rw [h1]
    have h2 := (List.mergeSort_perm ((r2.filter (fun t => t.is_fbs)).map (ratingOf r2))
      (fun a b => decide (ratingLe a b))).map (fun q : Rating => q.2.2.2)
    have h3 : (((r2.filter (fun t => t.is_fbs)).map (ratingOf r2)).map
        (fun q : Rating => q.2.2.2))
        = (r2.filter (fun t => t.is_fbs)).map Team.name := by
      rw [List.map_map]
      rfl
    rw [← h3]
    exact h2
  · have htotal : ∀ a b : Rating,
        (fun a b : Rating => decide (ratingLe a b)) a b
          || (fun a b : Rating => decide (ratingLe a b)) b a := by
      intro a b
      rcases ratingLe_total a b with h | h <;> simp [h]
    have htrans : ∀ a b c : Rating,
        (fun a b : Rating => decide (ratingLe a b)) a b →
        (fun a b : Rating => decide (ratingLe a b)) b c →
        (fun a b : Rating => decide (ratingLe a b)) a c := by
      intro a b c h1 h2
      simp only [decide_eq_true_eq] at h1 h2 ⊢
      exact ratingLe_trans a b c h1 h2
    have hsortpw := List.sorted_mergeSort htrans htotal
      ((r2.filter (fun t => t.is_fbs)).map (ratingOf r2))
    have hpw : (((r2.filter (fun t => t.is_fbs)).map (ratingOf r2)).mergeSort
        (fun a b => decide (ratingLe a b))).Pairwise ratingLe :=
      hsortpw.imp (by intro a b h; simpa using h)
    have h0 : ((((r2.filter (fun t => t.is_fbs)).map (ratingOf r2)).mergeSort
        (fun a b => decide (ratingLe a b))).enum.map Prod.snd).Pairwise ratingLe := by
      rw [List.enum_map_snd]
      exact hpw
    have henum := List.pairwise_map.mp h0
    have hror : ∀ p : Nat × Rating,
        ratingOfRanking (Ranking.mk (p.1 + 1) p.2.2.2.2 (-p.2.2.1) p.2.2.2.1 (-p.2.1))
          = p.2 := by
      rintro ⟨n, q1, q2, q3, q4⟩
      simp [ratingOfRanking]
    exact List.Pairwise.map _
      (fun p q h => by rw [hror p, hror q]; exact h) henum

/-- With a closed registry, get_rankings yields a table whose ranks are
1..n, whose rows are the top-tier teams, sorted by the rating order. -/
theorem get_rankings_spec (r : Registry) (hc : closedReg r) :
    ∃ l, Team.get_rankings r = some l ∧
      l.length = (r.filter (fun t => t.is_fbs)).length ∧
      l.map Ranking.rank = (List.range l.length).map (fun i => i + 1) ∧
      List.Perm (l.map Ranking.team) ((r.filter (fun t => t.is_fbs)).map Team.name) ∧
      l.Pairwise (fun a b => ratingLe (ratingOfRanking a) (ratingOfRanking b)) := by
  have hsk := solved_map_skel r
  have hc2 := closedReg_of_map_skel hsk hc
  rcases rankTable_spec _ hc2 with ⟨l, h1, h2, h3, h4, h5⟩
  refine ⟨l, h1, ?_, h3, ?_, h5⟩
  · rw [h2]
    have hlen := congrArg List.length (filter_fbs_map_skel hsk)
    rw [List.length_map, List.length_map] at hlen
    exact hlen
  · rw [← map_name_of_map_skel (filter_fbs_map_skel hsk)]
    exact h4

/-- C6: get_rankings outputs exactly the top-tier teams, sorted ascending
by the tuple (-score, -wins, losses, name), with rank equal to the
1-based position; the tuple order is total, transitive and antisymmetric,
so the output is deterministic with distinct ranks 1..n. -/
theorem claim_c6_rankings_sorted (r : Registry) (hc : closedReg r) :
    (∃ l, Team.get_rankings r = some l ∧
      l.map Ranking.rank = (List.range l.length).map (fun i => i + 1) ∧
      l.length = (r.filter (fun t => t.is_fbs)).length ∧
      List.Perm (l.map Ranking.team) ((r.filter (fun t => t.is_fbs)).map Team.name) ∧
      l.Pairwise (fun a b => ratingLe (ratingOfRanking a) (ratingOfRanking b))) ∧
    (∀ x y : Rating, ratingLe x y ∨ ratingLe y x) ∧
    (∀ x y z : Rating, ratingLe x y → ratingLe y z → ratingLe x z) ∧
    (∀ x y : Rating, ratingLe x y → ratingLe y x → x = y) := by
  rcases get_rankings_spec r hc with ⟨l, h1, h2, h3, h4, h5⟩
  exact ⟨⟨l, h1, h3, h2, h4, h5⟩, ratingLe_total, ratingLe_trans, ratingLe_antisymm⟩

/-- Witness for C6 on the demo registry. -/
theorem claim_c6_rankings_sorted_witness :
    (∃ l, Team.get_rankings (builtFrom demoGames) = some l ∧
      l.map Ranking.rank = (List.range l.length).map (fun i => i + 1) ∧
      l.length = ((builtFrom demoGames).filter (fun t => t.is_fbs)).length ∧
      List.Perm (l.map Ranking.team)
        (((builtFrom demoGames).filter (fun t => t.is_fbs)).map Team.name) ∧
      l.Pairwise (fun a b => ratingLe (ratingOfRanking a) (ratingOfRanking b))) ∧
    (∀ x y : Rating, ratingLe x y ∨ ratingLe y x) ∧
    (∀ x y z : Rating, ratingLe x y → ratingLe y z → ratingLe x z) ∧
    (∀ x y : Rating, ratingLe x y → ratingLe y x → x = y) :=
  claim_c6_rankings_sorted (builtFrom demoGames) (by decide)

set_option maxRecDepth 2048 in
/-- C1 fails on the code: Team.teams is a class attribute that
lambda_handler never clears, so a second invocation in the same process
starts ingestion from the registry the first invocation left behind.
Concretely, after a first invocation that recorded TeamA vs TeamB, the
registry handed to a second invocation is not empty, still holds TeamA,
and the second invocation's rankings (four teams) differ from the
rankings a fresh registry would produce from the same games (two
teams). -/
theorem claim_c1_registry_persists :
    (lambda_handler_core [] invOneGames).1 ≠ [] ∧
    (findTeam (lambda_handler_core [] invOneGames).1 "TeamA").isSome ∧
    (lambda_handler_core (lambda_handler_core [] invOneGames).1 invTwoGames).2
      ≠ (lambda_handler_core [] invTwoGames).2 := by
  refine ⟨by decide, by decide, ?_⟩
  intro heq
  simp only [lambda_handler_core] at heq
  have heq' : Team.get_rankings (ingest (ingest [] invOneGames) invTwoGames)
      = Team.get_rankings (ingest [] invTwoGames) := heq
  have hcs : closedReg (ingest (ingest [] invOneGames) invTwoGames) := by decide
  have hcf : closedReg (ingest [] invTwoGames) := by decide
  rcases get_rankings_spec _ hcs with ⟨l1, e1, len1, _, _, _⟩
  rcases get_rankings_spec _ hcf with ⟨l2, e2, len2, _, _, _⟩
  rw [e1, e2] at heq'
  have hll : l1 = l2 := Option.some.inj heq'
  have h4 : ((ingest (ingest [] invOneGames) invTwoGames).filter
      (fun t => t.is_fbs)).length = 4 := by decide
  have h2 : ((ingest [] invTwoGames).filter (fun t => t.is_fbs)).length = 2 := by
    decide
  rw [h4] at len1
  rw [h2] at len2
  rw [hll, len2] at len1
  exact absurd len1 (by norm_num)

end CFB
